import Mathlib

/-!
Verification development for the SketchUp importer core
(src/sketchup_importer/__init__.py, class SceneImporter).

The Python code is shallowly embedded: each method of SceneImporter that the
checked properties mention is translated into an executable Lean function over
an explicit importer-state record.  External collaborators (the SketchUp SDK
entity tree, the Blender data blocks) are modelled as plain data:

* the entity tree is an inductive type in which a component instance carries
  its definition's entity subtree inline (the Python code looks the subtree up
  in the component-definition dictionary; inlining it is the acyclic-graph
  reading that the spec's data-model invariant assumes);
* 4x4 matrices are modelled freely: an identity constructor, atomic source
  matrices, and a formal composition standing for the `@` matrix product
  (no checked property needs arithmetic facts about matrix entries);
* Blender meshes and objects are records; creating one allocates the next
  integer handle from a counter in the state;
* floating point numbers are modelled as rationals.

Helpers that live in the repository's SKPutil module (not part of the sources
available here) are modelled from the spec and marked as such.
-/

namespace SKP

/-- Association-list lookup (first binding wins), modelling Python dict
lookup. -/
def assocLookup {α β : Type} [DecidableEq α] : List (α × β) → α → Option β
  | [], _ => none
  | (a, b) :: t, k => if a = k then some b else assocLookup t k

/-- Value of a dict entry with a default. -/
def lookupD {α β : Type} [DecidableEq α] (l : List (α × β)) (k : α) (d : β) : β :=
  (assocLookup l k).getD d

/-- Python dict assignment `d[k] = v`: overwrite in place if the key exists,
otherwise append the new binding. -/
def assocInsert {α β : Type} [DecidableEq α] : List (α × β) → α → β → List (α × β)
  | [], k, v => [(k, v)]
  | (a, b) :: t, k, v =>
    if a = k then (k, v) :: t else (a, b) :: assocInsert t k v

/-- Adding a key to a dict used as a set (`self.component_skip[key] = ...`):
only membership of the key is ever consulted, so the stored value is dropped. -/
def skipInsert {α : Type} [DecidableEq α] (k : α) (l : List α) : List α :=
  if k ∈ l then l else l ++ [k]

/-- First-seen-order deduplication, modelling Python dict key order. -/
def firstSeen {α : Type} [DecidableEq α] : List α → List α → List α
  | [], acc => acc
  | a :: t, acc => if a ∈ acc then firstSeen t acc else firstSeen t (acc ++ [a])

/-- The keys of an event list in first-insertion order (Python dict iteration
order for a defaultdict filled by appends). -/
def dedupKeys {α : Type} [DecidableEq α] (l : List α) : List α := firstSeen l []

/-- Key of a (component-name, effective-material-name) pair. -/
abbrev MKey := String × String

/-- Free representation of mathutils 4x4 matrices: `ident` is
Matrix.Identity(4), `base` an atomic matrix read from a source node, and
`comp` the `@` matrix product (parent applied first, as in
`transform @ Matrix(group.transform)`). -/
inductive Transform : Type where
  | ident : Transform
  | base : Nat → Transform
  | comp : Transform → Transform → Transform
deriving DecidableEq, Repr

/-- A float triple (vertex position, location or scale). -/
abbrev V3 := ℚ × ℚ × ℚ

/-- A float quadruple (quaternion). -/
abbrev V4 := ℚ × ℚ × ℚ × ℚ

/-- Componentwise difference of two locations, modelling
`Vector(c) - main_loc`. -/
def vsub (a b : V3) : V3 := (a.1 - b.1, a.2.1 - b.2.1, a.2.2 - b.2.2)

/-- `component_stats`: the defaultdict(list) from key to the ordered list of
transforms, flattened into its append-ordered event list. -/
abbrev Stats := List (MKey × Transform)

/-- Number of occurrences recorded for a key: `len(component_stats[k])`. -/
def countKey (stats : Stats) (k : MKey) : Nat :=
  (stats.filter (fun e => e.1 = k)).length

/-- `component_stats[k]`: the ordered transform list of one key. -/
def statsOf (stats : Stats) (k : MKey) : List Transform :=
  (stats.filter (fun e => e.1 = k)).map (fun e => e.2)

/-- Modelled from the spec: the EntityType enum from the missing SKPutil
module, tagging the kind of node a traversal call is visiting (`none` for the
model root, `group`, `component`, and `outer` for the top call of
component_def_as_group). -/
inductive EntityType : Type where
  | none_ : EntityType
  | group : EntityType
  | component : EntityType
  | outer : EntityType
deriving DecidableEq, Repr

/-- Modelled from the spec: inherent_default_mat from the missing SKPutil
module resolves a node's effective material, which the spec's data-model
invariant defines as the node's own override if present, else the inherited
default. -/
def inherent_default_mat (mat : Option String) (dmat : String) : String :=
  match mat with
  | some m => m
  | none => dmat

/-- Modelled from the spec: group_name from the missing SKPutil module forms
the name of the shared instance-group collection from the component name and
the effective material (the spec only requires a same-named group to be
recognizable, so the exact mangling is immaterial to the claims). -/
def group_name (name mat : String) : String := name ++ "_" ++ mat

/-- Modelled from the spec: group_safe_name from the missing SKPutil module
sanitizes a Blender object name; the sanitization is immaterial to the claims
and is modelled as the identity. -/
def group_safe_name (name : String) : String := name

/-- A source face: `f.material` (name of the explicit material, if any),
`f.tessfaces` providing the vertex list and the already-tessellated triangle
index triples, and the per-edge GetSmooth flags.  The per-vertex UV channel of
tessfaces is omitted: no checked property consults UVs (the source also
appends to its own uvs list while zipping over it, which only affects the UV
layer it builds). -/
structure Face : Type where
  material : Option String
  vs : List V3
  tri : List (Nat × Nat × Nat)
  smoothEdges : List Bool
deriving DecidableEq, Repr

/-- Data of a group node: name, layer id, hidden flag, optional material
override and local transform. -/
structure GInfo : Type where
  name : String
  layer : Nat
  hidden : Bool
  material : Option String
  transform : Transform
deriving DecidableEq, Repr

/-- Data of a component instance: referenced definition name, instance name,
layer id, hidden flag, optional material override and local transform. -/
structure IInfo : Type where
  defName : String
  instName : String
  layer : Nat
  hidden : Bool
  material : Option String
  transform : Transform
deriving DecidableEq, Repr

mutual

/-- An entity set: nested groups, nested component instances, and faces.
A cons cell of the instance list carries the referenced definition's entity
subtree inline, standing for the `self.skp_components[instance.definition.name]`
lookup under the spec's acyclicity invariant. -/
inductive Ent : Type where
  | mk : GList → IList → List Face → Ent

/-- The ordered `entities.groups` sequence. -/
inductive GList : Type where
  | nil : GList
  | cons : GInfo → Ent → GList → GList

/-- The ordered `entities.instances` sequence; each entry carries the
definition's entity subtree. -/
inductive IList : Type where
  | nil : IList
  | cons : IInfo → Ent → IList → IList

end

/-- The faces of an entity set. -/
def Ent.faces : Ent → List Face
  | .mk _ _ fs => fs

/-- The group list of an entity set. -/
def Ent.groups : Ent → GList
  | .mk gs _ _ => gs

/-- The instance list of an entity set. -/
def Ent.instances : Ent → IList
  | .mk _ il _ => il

/-- Length of a group list (the brute-force `nested_groups` count). -/
def GList.length : GList → Nat
  | .nil => 0
  | .cons _ _ t => t.length + 1

/-- Length of an instance list (the brute-force `nested_comps` count). -/
def IList.length : IList → Nat
  | .nil => 0
  | .cons _ _ t => t.length + 1

/-- The data stored in a built Blender mesh (vertex positions, loop vertex
indices, per-triangle material slot and smoothing flag).  UV layers and
material-slot binding to Blender material data blocks are external sink
effects not consulted by any checked property. -/
structure MeshData : Type where
  verts : List V3 := []
  loops_vert_idx : List Nat := []
  mat_index : List Nat := []
  smooth : List Bool := []
deriving DecidableEq, Repr

/-- Working accumulator of write_mesh_data's face loop: the growing verts
list, the `seen` keep_offset vertex table, the `mats` keep_offset material
table, and the triangle streams. -/
structure MeshAcc : Type where
  verts : List V3
  seen : List V3
  mats : List String
  loops_vert_idx : List Nat
  mat_index : List Nat
  smooth : List Bool
deriving DecidableEq, Repr

/-- Modelled from the spec: keep_offset from the missing SKPutil module is a
defaultdict assigning each new key the next integer offset in first-seen
order; it is modelled as the list of keys, the offset being the position.
This function performs one access: the key's offset plus the updated table. -/
def koIndex (l : List String) (k : String) : Nat × List String :=
  match List.findIdx? (fun x => x = k) l with
  | some j => (j, l)
  | none => (l.length, l ++ [k])

/-- The per-face vertex loop of write_mesh_data: for each tessface vertex,
look it up in the `seen` keep_offset table; a new vertex is appended to both
`verts` and the table, and `mapping` receives the vertex's global index. -/
def addVertsLoop : List V3 → List V3 → List V3 → List Nat →
    List Nat × List V3 × List V3
  | [], seen, verts, mp => (mp, seen, verts)
  | v :: t, seen, verts, mp =>
    match List.findIdx? (fun x => x = v) seen with
    | some j => addVertsLoop t seen verts (mp ++ [j])
    | none => addVertsLoop t (seen ++ [v]) (verts ++ [v]) (mp ++ [seen.length])

/-- One face of write_mesh_data's face loop: resolve the material slot
(explicit material else the default; the st_scale texture-tiling side effect
touches only the external face object), deduplicate the face's vertices,
derive the face smoothing flag from the edges, and emit the triangle streams
with the source's index rotation when the third mapped index is 0. -/
def faceStep (dmat : String) (acc : MeshAcc) (f : Face) : MeshAcc :=
  let km :=
    match f.material with
    | some mname => koIndex acc.mats mname
    | none => koIndex acc.mats dmat
  let avl := addVertsLoop f.vs acc.seen acc.verts []
  let mapping := avl.1
  let se := f.smoothEdges.any (fun b => b)
  let tres := f.tri.foldl
    (fun (a : List Nat × List Nat × List Bool) tr =>
      let m0 := mapping.getD tr.1 0
      let m1 := mapping.getD tr.2.1 0
      let m2 := mapping.getD tr.2.2 0
      let idxs := if m2 = 0 then [m2, m0, m1] else [m0, m1, m2]
      (a.1 ++ idxs, a.2.1 ++ [km.1], a.2.2 ++ [se]))
    (acc.loops_vert_idx, acc.mat_index, acc.smooth)
  { verts := avl.2.2, seen := avl.2.1, mats := km.2,
    loops_vert_idx := tres.1, mat_index := tres.2.1, smooth := tres.2.2 }

/-- The whole face loop of write_mesh_data over the entity set's faces. -/
def buildAcc (faces : List Face) (dmat : String) : MeshAcc :=
  faces.foldl (faceStep dmat) ⟨[], [], [], [], [], []⟩

/-- A Blender object as created by the importer.  Fields the code assigns are
recorded; `mesh` and `instance_collection` hold handles, `parent` the parent
object's name.  The location-offset adjustment against the parent and the
show_transparent flag are omitted: they mutate only fields no checked property
consults. -/
structure BObject : Type where
  name : String
  mesh : Option Nat := none
  matrix_world : Option Transform := none
  parent : Option String := none
  hideSet : Bool := false
  instance_collection : Option String := none
  group_link : Option String := none
  instance_type : Option String := none
  location : Option V3 := none
  scale : Option V3 := none
  rot_q : Option V4 := none
deriving DecidableEq, Repr

/-- The per-import mutable state of SceneImporter: the occurrence statistics,
the component-skip set, the mesh cache keyed by (name, default_material), the
mesh store with its handle counter, the written-group map, the Blender
collection names and the created objects.  proxy_dict of the missing SKPutil
module is modelled as a plain association list. -/
structure SIState : Type where
  component_stats : Stats := []
  component_skip : List MKey := []
  component_meshes : List (MKey × (Nat × Bool)) := []
  mesh_data : List (Nat × MeshData) := []
  nextMesh : Nat := 0
  group_written : List (MKey × String) := []
  collections : List String := []
  objects : List BObject := []
deriving DecidableEq, Repr

/-- SceneImporter.write_mesh_data.  Returns the cached (mesh, alpha) pair when
the (name, default_material) key is already in component_meshes; otherwise
runs the face loop, returns (None, False) when it produced no vertices, and
else allocates a mesh handle, stores the mesh data and caches the result.
The local `alpha` variable of the source is initialized to False and never
reassigned (the assignment is commented out), so the returned flag is always
False on a fresh build. -/
def write_mesh_data (e : Ent) (name dmat : String) (st : SIState) :
    (Option Nat × Bool) × SIState :=
  let key : MKey := (name, dmat)
  match assocLookup st.component_meshes key with
  | some (m, a) => ((some m, a), st)
  | none =>
    let acc := buildAcc e.faces dmat
    if acc.verts = [] then ((none, false), st)
    else
      let mid := st.nextMesh
      ((some mid, false),
        { st with
          nextMesh := mid + 1
          mesh_data := st.mesh_data ++
            [(mid, { verts := acc.verts, loops_vert_idx := acc.loops_vert_idx,
                     mat_index := acc.mat_index, smooth := acc.smooth })]
          component_meshes := st.component_meshes ++ [(key, (mid, false))] })

/-- Result of the field-of-view part of SceneImporter.write_camera: either
orthographic mode or a perspective angle. -/
inductive CamMode : Type where
  | ortho : CamMode
  | persp : ℚ → CamMode
deriving DecidableEq, Repr

/-- The float constant math.pi (the IEEE-754 double nearest pi), as an exact
rational. -/
def math_pi : ℚ := 884279719003555 / 281474976710656

/-- The aspect-ratio resolution of write_camera: `if aspect_ratio == False`
falls back to the render-viewport ratio self.aspect_ratio (resolution_x over
resolution_y, passed here as render_aspect).  The SDK reports the dynamic
aspect as the Python value False, and a float aspect compares equal to False
exactly when it is 0. -/
def effective_aspect (render_aspect : ℚ) (aspect : Option ℚ) : ℚ :=
  match aspect with
  | none => render_aspect
  | some a => if a = 0 then render_aspect else a

/-- The projection-mode logic of SceneImporter.write_camera: `if fov == False`
selects orthographic mode (the SDK reports a missing field of view as the
Python value False, and a float fov compares equal to False exactly when it is
0); otherwise the camera angle is set to (math.pi * fov / 180) * aspect_ratio.
The camera basis vectors, clip distance and naming touch only external
Blender state no checked property consults. -/
def write_camera_projection (render_aspect : ℚ) (fov aspect : Option ℚ) :
    CamMode :=
  let ar := effective_aspect render_aspect aspect
  match fov with
  | none => CamMode.ortho
  | some f => if f = 0 then CamMode.ortho else CamMode.persp (math_pi * f / 180 * ar)

mutual

/-- SceneImporter.analyze_entities: the analysis traversal.  When called on a
component node it first appends the composed transform to the
(name, default_material) occurrence list; it then walks the nested groups and
the nested instances, skipping any whose layer is in layers_skip (the source
guards with `self.layers_skip and ...`, equivalent to plain membership), and
consulting component_skip only for instances.  Both recursive calls of the
source omit the component_skip argument, so recursion always proceeds with
the default empty skip list. -/
def analyze_entities (e : Ent) (name : String) (t : Transform) (dmat : String)
    (et : EntityType) (stats : Stats) (cskip : List MKey) (lskip : List Nat) :
    Stats :=
  match e with
  | .mk gs il _ =>
    let stats1 := if et = EntityType.component then stats ++ [((name, dmat), t)] else stats
    analyzeInsts il t dmat cskip lskip (analyzeGroups gs t dmat lskip stats1)

/-- The `for group in entities.groups` loop of analyze_entities. -/
def analyzeGroups (gs : GList) (t : Transform) (dmat : String)
    (lskip : List Nat) (stats : Stats) : Stats :=
  match gs with
  | .nil => stats
  | .cons g sub rest =>
    if g.layer ∈ lskip then analyzeGroups rest t dmat lskip stats
    else
      analyzeGroups rest t dmat lskip
        (analyze_entities sub ("G-" ++ g.name) (t.comp g.transform)
          (inherent_default_mat g.material dmat) EntityType.group stats [] lskip)

/-- The `for instance in entities.instances` loop of analyze_entities:
layer-hidden instances are skipped, instances whose (definition-name,
effective-material) pair is in the consulted component_skip are skipped, and
the rest recurse into the definition's subtree as component nodes. -/
def analyzeInsts (il : IList) (t : Transform) (dmat : String)
    (cskip : List MKey) (lskip : List Nat) (stats : Stats) : Stats :=
  match il with
  | .nil => stats
  | .cons i defE rest =>
    if i.layer ∈ lskip then analyzeInsts rest t dmat cskip lskip stats
    else
      let m := inherent_default_mat i.material dmat
      if (i.defName, m) ∈ cskip then analyzeInsts rest t dmat cskip lskip stats
      else
        analyzeInsts rest t dmat cskip lskip
          (analyze_entities defE i.defName (t.comp i.transform) m
            EntityType.component stats [] lskip)

end

mutual

/-- The analysis traversal with the component-skip consultation removed: it
visits every non-hidden-layer node unconditionally.  This is the comparison
definition for the completeness property: with an empty skip list the real
traversal must coincide with it. -/
def analyze_full (e : Ent) (name : String) (t : Transform) (dmat : String)
    (et : EntityType) (stats : Stats) (lskip : List Nat) : Stats :=
  match e with
  | .mk gs il _ =>
    let stats1 := if et = EntityType.component then stats ++ [((name, dmat), t)] else stats
    analyzeFullInsts il t dmat lskip (analyzeFullGroups gs t dmat lskip stats1)

/-- Group loop of analyze_full. -/
def analyzeFullGroups (gs : GList) (t : Transform) (dmat : String)
    (lskip : List Nat) (stats : Stats) : Stats :=
  match gs with
  | .nil => stats
  | .cons g sub rest =>
    if g.layer ∈ lskip then analyzeFullGroups rest t dmat lskip stats
    else
      analyzeFullGroups rest t dmat lskip
        (analyze_full sub ("G-" ++ g.name) (t.comp g.transform)
          (inherent_default_mat g.material dmat) EntityType.group stats lskip)

/-- Instance loop of analyze_full. -/
def analyzeFullInsts (il : IList) (t : Transform) (dmat : String)
    (lskip : List Nat) (stats : Stats) : Stats :=
  match il with
  | .nil => stats
  | .cons i defE rest =>
    if i.layer ∈ lskip then analyzeFullInsts rest t dmat lskip stats
    else
      let m := inherent_default_mat i.material dmat
      analyzeFullInsts rest t dmat lskip
        (analyze_full defE i.defName (t.comp i.transform) m
          EntityType.component stats lskip)

end

/-- The parenting guard of write_entities: a child records its parent unless
the caller is the loose-entity root (`parent_name is not None and
parent_name != "_(Loose Entity)"`). -/
def parentNameOf (pname : Option String) : Option String :=
  match pname with
  | some p => if p = "_(Loose Entity)" then none else some p
  | none => none

/-- The objects write_entities links for one visited node: a single object
holding the node's mesh when it has no nested children (or is the
loose-entity root); otherwise a hidden empty object, preceded — when the node
has direct geometry — by a loose-mesh child object parented to the empty
(linked first, as in the source). -/
def nodeObjects (name : String) (pt : Transform) (pn : Option String)
    (me : Option Nat) (nested : Nat) : List BObject :=
  if nested = 0 ∨ name = "_(Loose Entity)" then
    [{ name := name, mesh := me, matrix_world := some pt, parent := pn,
       hideSet := false }]
  else
    (match me with
     | some _ =>
       [{ name := "_" ++ name ++ " (Loose Mesh)", mesh := me,
          matrix_world := some pt, parent := some name, hideSet := false }]
     | none => []) ++
    [{ name := name, mesh := none, matrix_world := some pt, parent := pn,
       hideSet := true }]

mutual

/-- SceneImporter.write_entities: the write pass.  A component node whose
(name, default_material) key is in component_skip only appends the composed
transform to component_stats and returns.  Otherwise the mesh is built or
looked up, a mesh object (when the node has no nested children, or is the
loose-entity root) or a hidden empty plus an optional loose-mesh child object
is created and linked, and the traversal recurses into the non-hidden,
non-layer-hidden groups and instances with this node as parent.  An object's
parent is recorded unless the caller is the loose-entity root; the temporary
object the source allocates merely to sanitize a group name, the
parent-relative location adjustment and the rotation/scale reset on empties
mutate no state a checked property consults and are omitted. -/
def write_entities (e : Ent) (name : String) (pt : Transform) (dmat : String)
    (et : EntityType) (pname : Option String) (lskip : List Nat)
    (st : SIState) : SIState :=
  match e with
  | .mk gs il fs =>
    if et = EntityType.component ∧ (name, dmat) ∈ st.component_skip then
      { st with component_stats := st.component_stats ++ [((name, dmat), pt)] }
    else
      let r := write_mesh_data (Ent.mk gs il fs) name dmat st
      let me := r.1.1
      let st1 := r.2
      let nested := gs.length + il.length
      let pn := parentNameOf pname
      let st2 := { st1 with objects := st1.objects ++ nodeObjects name pt pn me nested }
      writeInsts il pt dmat name lskip (writeGroups gs pt dmat name lskip st2)

/-- The `for group in entities.groups` loop of write_entities: hidden groups
and groups on hidden layers are skipped. -/
def writeGroups (gs : GList) (pt : Transform) (dmat : String)
    (parentN : String) (lskip : List Nat) (st : SIState) : SIState :=
  match gs with
  | .nil => st
  | .cons g sub rest =>
    if g.hidden then writeGroups rest pt dmat parentN lskip st
    else if g.layer ∈ lskip then writeGroups rest pt dmat parentN lskip st
    else
      writeGroups rest pt dmat parentN lskip
        (write_entities sub ("G-" ++ group_safe_name g.name)
          (pt.comp g.transform) (inherent_default_mat g.material dmat)
          EntityType.group (some parentN) lskip st)

/-- The `for instance in entities.instances` loop of write_entities: hidden
instances and instances on hidden layers are skipped; the rest recurse into
the definition's subtree as component nodes under the derived name. -/
def writeInsts (il : IList) (pt : Transform) (dmat : String)
    (parentN : String) (lskip : List Nat) (st : SIState) : SIState :=
  match il with
  | .nil => st
  | .cons i defE rest =>
    if i.hidden then writeInsts rest pt dmat parentN lskip st
    else if i.layer ∈ lskip then writeInsts rest pt dmat parentN lskip st
    else
      let m := inherent_default_mat i.material dmat
      let cname :=
        if i.instName = "" then "C-" ++ i.defName
        else i.instName ++ " (C-" ++ i.defName ++ ")"
      writeInsts rest pt dmat parentN lskip
        (write_entities defE cname (pt.comp i.transform) m
          EntityType.component (some parentN) lskip st)

end

/-- SceneImporter.instance_object_or_group: an empty object instancing the
written collection when group_written holds the key, else an object holding
the cached mesh.  When neither map holds the key the source raises an
uncaught KeyError; under the spec's coherence assumptions that branch is
unreachable from the materialization pass (a skipped pair always has its
group recorded first), and the model returns a meshless object there. -/
def instance_object_or_group (name dmat : String) (st : SIState) : BObject :=
  match assocLookup st.group_written (name, dmat) with
  | some g => { name := name, instance_collection := some g }
  | none =>
    match assocLookup st.component_meshes (name, dmat) with
    | some (m, _a) => { name := name, mesh := some m }
    | none => { name := name }

mutual

/-- SceneImporter.component_def_as_group: materializes one component
definition into the collection `group`.  The outer call returns at once if
the (name, default_material) pair is already skipped and otherwise marks it
in component_skip before descending; a nested component whose pair is skipped
is emitted as a reference object via instance_object_or_group; any other node
has its mesh built and linked, and the traversal recurses into
non-layer-hidden groups and instances (the per-entity hidden flag is not
consulted here). -/
def component_def_as_group (e : Ent) (name : String) (pt : Transform)
    (dmat : String) (et : EntityType) (group : String) (lskip : List Nat)
    (st : SIState) : SIState :=
  match e with
  | .mk gs il fs =>
    if et = EntityType.outer ∧ (name, dmat) ∈ st.component_skip then st
    else
      let st0 :=
        if et = EntityType.outer then
          { st with component_skip := skipInsert (name, dmat) st.component_skip }
        else st
      if et = EntityType.component ∧ (name, dmat) ∈ st0.component_skip then
        let ob := instance_object_or_group name dmat st0
        { st0 with objects := st0.objects ++
            [{ ob with matrix_world := some pt, group_link := some group }] }
      else
        let r := write_mesh_data (Ent.mk gs il fs) name dmat st0
        let st1 := r.2
        let st2 :=
          match r.1.1 with
          | some mid =>
            { st1 with objects := st1.objects ++
                [{ name := name, mesh := some mid, matrix_world := some pt,
                   group_link := some group }] }
          | none => st1
        cdagInsts il pt dmat group lskip (cdagGroups gs pt dmat group lskip st2)

/-- Group loop of component_def_as_group (layer filtering only). -/
def cdagGroups (gs : GList) (pt : Transform) (dmat : String) (group : String)
    (lskip : List Nat) (st : SIState) : SIState :=
  match gs with
  | .nil => st
  | .cons g sub rest =>
    if g.layer ∈ lskip then cdagGroups rest pt dmat group lskip st
    else
      cdagGroups rest pt dmat group lskip
        (component_def_as_group sub ("G-" ++ g.name) (pt.comp g.transform)
          (inherent_default_mat g.material dmat) EntityType.group group lskip st)

/-- Instance loop of component_def_as_group (layer filtering only). -/
def cdagInsts (il : IList) (pt : Transform) (dmat : String) (group : String)
    (lskip : List Nat) (st : SIState) : SIState :=
  match il with
  | .nil => st
  | .cons i defE rest =>
    if i.layer ∈ lskip then cdagInsts rest pt dmat group lskip st
    else
      cdagInsts rest pt dmat group lskip
        (component_def_as_group defE i.defName (pt.comp i.transform)
          (inherent_default_mat i.material dmat) EntityType.component group
          lskip st)

end

/-- The candidate filter of write_duplicateable_groups: the keys of the
analysis statistics in dict order, kept when the occurrence-list length is at
least the instance threshold (`len(v) >= instance_when_over`). -/
def dedup_candidates (stats : Stats) (thr : Nat) : List MKey :=
  (dedupKeys (stats.map Prod.fst)).filter (fun k => thr ≤ countKey stats k)

/-- One candidate pair of write_duplicateable_groups' inner loop at depth
level i: a pair with an existing definition and depth exactly 1 is passed
over; a pair whose depth equals the current level is materialized — reusing
an existing same-named collection when the reuse option is set, else creating
the collection and writing the definition via component_def_as_group — and
recorded in component_skip and group_written. -/
def dedup_step (comps : List (String × Ent)) (cdepth : List (String × Nat))
    (reuse : Bool) (lskip : List Nat) (i : Nat) (k : MKey) (st : SIState) :
    SIState :=
  let d := lookupD cdepth k.1 0
  match assocLookup comps k.1 with
  | none => st
  | some ce =>
    if d = 1 then st
    else if d = i then
      let gname := group_name k.1 k.2
      if reuse ∧ gname ∈ st.collections then
        { st with component_skip := skipInsert k st.component_skip,
                  group_written := assocInsert st.group_written k gname }
      else
        let st1 := { st with collections := st.collections ++ [gname] }
        let st2 := component_def_as_group ce k.1 Transform.ident k.2
          EntityType.outer gname lskip st1
        { st2 with component_skip := skipInsert k st2.component_skip,
                   group_written := assocInsert st2.group_written k gname }
    else st

/-- The `for k, v in component_stats.items()` loop at one depth level. -/
def dedup_inner (comps : List (String × Ent)) (cdepth : List (String × Nat))
    (reuse : Bool) (lskip : List Nat) (i : Nat) (ks : List MKey)
    (st : SIState) : SIState :=
  ks.foldl (fun s k => dedup_step comps cdepth reuse lskip i k s) st

/-- The `for i in range(max_depth + 1)` loop over depth levels. -/
def dedup_outer (comps : List (String × Ent)) (cdepth : List (String × Nat))
    (reuse : Bool) (lskip : List Nat) (levels : List Nat) (ks : List MKey)
    (st : SIState) : SIState :=
  levels.foldl (fun s i => dedup_inner comps cdepth reuse lskip i ks s) st

/-- `max(self.component_depth.values(), default=0)`. -/
def maxDepthOf (cdepth : List (String × Nat)) : Nat :=
  (cdepth.map Prod.snd).foldr Nat.max 0

/-- SceneImporter.write_duplicateable_groups: run the analysis pass from the
model root with fresh statistics and the default empty skip list, filter the
pairs by the instance threshold, and process every candidate at each depth
level from 0 up to the maximal component depth. -/
def write_duplicateable_groups (root : Ent) (comps : List (String × Ent))
    (cdepth : List (String × Nat)) (thr : Nat) (reuse : Bool)
    (lskip : List Nat) (st : SIState) : SIState :=
  let stats := analyze_entities root "Sketchup" Transform.ident "Material"
    EntityType.none_ [] [] lskip
  let cand := dedup_candidates stats thr
  dedup_outer comps cdepth reuse lskip (List.range (maxDepthOf cdepth + 1))
    cand st

/-- The promotion condition dedup_step acts on at depth level i: the
component definition exists, its depth is not exactly 1, and its depth equals
the current level. -/
def promotableAt (comps : List (String × Ent)) (cdepth : List (String × Nat))
    (i : Nat) (k : MKey) : Bool :=
  (assocLookup comps k.1).isSome &&
    (lookupD cdepth k.1 0 != 1) && (lookupD cdepth k.1 0 == i)

/-- The group_written entries one depth level contributes: the candidate
pairs promotable at that level, each mapped to its group name, in candidate
order. -/
def blockAt (comps : List (String × Ent)) (cdepth : List (String × Nat))
    (cand : List MKey) (i : Nat) : List (MKey × String) :=
  (cand.filter (promotableAt comps cdepth i)).map
    (fun k => (k, group_name k.1 k.2))

/-- One recorded occurrence after mathutils decomposition: location, rotation
quaternion and scale, as produced by Matrix(transform).decompose(). -/
abbrev DecT := V3 × V4 × V3

/-- Appending a location under its (scale, rotation) key, modelling one
`orientations[(scale, rot)].append(loc)` on the defaultdict: the existing
entry of the key extends its list, a fresh key gains a new entry at the
end. -/
def orientInsert : List ((V3 × V4) × List V3) → (V3 × V4) → V3 →
    List ((V3 × V4) × List V3)
  | [], k, loc => [(k, [loc])]
  | (a, l) :: t, k, loc =>
    if a = k then (a, l ++ [loc]) :: t else (a, l) :: orientInsert t k loc

/-- The (scale, rotation) grouping key of one occurrence:
`loc, rot, scale = Matrix(transform).decompose()` keyed by (scale, rot). -/
def okey (dec : Transform → DecT) (t : Transform) : V3 × V4 :=
  ((dec t).2.2, (dec t).2.1)

/-- The decomposed location of one occurrence. -/
def oloc (dec : Transform → DecT) (t : Transform) : V3 := (dec t).1

/-- The get_orientations closure of instance_group_dupli_vert: decompose each
recorded transform and group the locations by the exact (scale, rotation)
pair, in first-seen dict order.  The mathutils decomposition is passed in as
the function dec. -/
def get_orientations (dec : Transform → DecT) (v : List Transform) :
    List ((V3 × V4) × List V3) :=
  v.foldl (fun acc t => orientInsert acc (okey dec t) (oloc dec t)) []

/-- The vertex list of one DUPLI mesh: every member location of the cluster
as an offset from the first member's location (`Vector(c) - main_loc`). -/
def dupli_cluster_verts (locs : List V3) : List V3 :=
  locs.map (fun c => vsub c (locs.headI))

/-- One cluster of instance_group_dupli_vert's loop: allocate the DUPLI mesh
holding the offset vertices, create the vertex-instancing DUPLI object at the
first member's location, and parent the shared-group reference (or cached
mesh) object to it with the cluster's scale and rotation applied. -/
def dupliVertStep (name dmat : String) (st : SIState)
    (cl : (V3 × V4) × List V3) : SIState :=
  let scale := cl.1.1
  let rot := cl.1.2
  let locs := cl.2
  let main_loc := locs.headI
  let dmeId := st.nextMesh
  let dobName := "DUPLI-" ++ name
  let ob := instance_object_or_group name dmat st
  { st with
    nextMesh := dmeId + 1
    mesh_data := st.mesh_data ++ [(dmeId, { verts := dupli_cluster_verts locs })]
    objects := st.objects ++
      [{ ob with scale := some scale, rot_q := some rot, parent := some dobName },
       ({ name := dobName, mesh := some dmeId, location := some main_loc,
          instance_type := some "VERTS" } : BObject)] }

/-- SceneImporter.instance_group_dupli_vert: cluster the recorded occurrences
of one (component, material) pair by exact (scale, rotation) and emit one
vertex-instanced DUPLI group per cluster. -/
def instance_group_dupli_vert (dec : Transform → DecT) (name dmat : String)
    (stats : Stats) (st : SIState) : SIState :=
  (get_orientations dec (statsOf stats (name, dmat))).foldl
    (dupliVertStep name dmat) st

/-! Concrete sample inputs used by witnesses and counterexamples. -/

/-- A single triangular face with three distinct vertices. -/
def faceTriangle : Face :=
  { material := none, vs := [(0, 0, 0), (1, 0, 0), (0, 1, 0)],
    tri := [(0, 1, 2)], smoothEdges := [false] }

/-- A leaf component definition holding one triangle and no children. -/
def entChair : Ent := Ent.mk GList.nil IList.nil [faceTriangle]

/-- An unnamed instance of the Chair definition. -/
def iChair : IInfo :=
  { defName := "Chair", instName := "", layer := 0, hidden := false,
    material := none, transform := Transform.base 1 }

/-- A root entity set with two Chair instances and no loose faces. -/
def entRoot2 : Ent :=
  Ent.mk GList.nil
    (IList.cons iChair entChair
      (IList.cons { iChair with transform := Transform.base 2 } entChair
        IList.nil)) []

/-- An entity set with no groups, no instances and no faces. -/
def entEmpty : Ent := Ent.mk GList.nil IList.nil []

/-- A second leaf definition (same geometry, different name usage). -/
def entDesk : Ent := Ent.mk GList.nil IList.nil [faceTriangle]

/-- An unnamed instance of the Desk definition. -/
def iDesk : IInfo :=
  { defName := "Desk", instName := "", layer := 0, hidden := false,
    material := none, transform := Transform.base 7 }

/-- A root with two Chair instances and one Desk instance. -/
def rootC1 : Ent :=
  Ent.mk GList.nil
    (IList.cons iChair entChair
      (IList.cons { iChair with transform := Transform.base 2 } entChair
        (IList.cons iDesk entDesk IList.nil))) []

/-- An unnamed instance of a nested Sub component. -/
def iSub : IInfo :=
  { defName := "Sub", instName := "", layer := 0, hidden := false,
    material := none, transform := Transform.base 8 }

/-- A depth-1 component definition: it nests one instance of the depth-0
component Sub. -/
def entLeafDef : Ent := Ent.mk GList.nil (IList.cons iSub entChair IList.nil) []

/-- An unnamed instance of the depth-1 Leaf definition. -/
def iLeaf : IInfo :=
  { defName := "Leaf", instName := "", layer := 0, hidden := false,
    material := none, transform := Transform.base 9 }

/-- A root with exactly one Leaf instance. -/
def rootL : Ent := Ent.mk GList.nil (IList.cons iLeaf entLeafDef IList.nil) []

/-- A state whose mesh cache already holds the pair ("E", "Material"). -/
def stCachedE : SIState :=
  { component_meshes := [(("E", "Material"), (7, false))], nextMesh := 8 }

/-- A state whose component-skip set holds the pair ("Chair", "Material"). -/
def stSkipChair : SIState :=
  { component_skip := [("Chair", "Material")] }

/-- A concrete decomposition table for the clustering witnesses: transforms 1
and 2 share scale and rotation and differ in location, transform 3 differs in
rotation. -/
def decW (t : Transform) : DecT :=
  match t with
  | Transform.base 1 => ((0, 0, 0), (1, 0, 0, 0), (1, 1, 1))
  | Transform.base 2 => ((5, 0, 0), (1, 0, 0, 0), (1, 1, 1))
  | Transform.base 3 => ((9, 9, 9), (0, 1, 0, 0), (1, 1, 1))
  | _ => ((0, 0, 0), (1, 0, 0, 0), (1, 1, 1))

/-- Occurrence statistics of the pair ("Chair", "Material") at the three
transforms decomposed by decW. -/
def statsW : Stats :=
  [(("Chair", "Material"), Transform.base 1),
   (("Chair", "Material"), Transform.base 2),
   (("Chair", "Material"), Transform.base 3)]

/-! Helper lemmas. -/

/-- Looking a key up after appending a fresh binding finds that binding. -/
theorem assocLookup_append_of_none {α β : Type} [DecidableEq α]
    {l : List (α × β)} {k : α} (v : β) (h : assocLookup l k = none) :
    assocLookup (l ++ [(k, v)]) k = some v := by
  induction l with
  | nil => simp [assocLookup]
  | cons a t ih =>
    rw [assocLookup] at h
    by_cases hak : a.1 = k
    · simp [hak] at h
    · cases a with
      | mk a1 a2 =>
        simp only [List.cons_append, assocLookup]
        simp only [assocLookup, if_neg hak] at h ⊢
        exact ih h

/-- Lookup distributes over list append. -/
theorem assocLookup_append {α β : Type} [DecidableEq α]
    (l1 l2 : List (α × β)) (k : α) :
    assocLookup (l1 ++ l2) k =
      match assocLookup l1 k with
      | some v => some v
      | none => assocLookup l2 k := by
  induction l1 with
  | nil => simp [assocLookup]
  | cons a t ih =>
    cases a with
    | mk a1 a2 =>
      by_cases hak : a1 = k
      · simp [assocLookup, hak]
      · simp [assocLookup, hak, ih]

/-- Membership in a skipInsert result. -/
theorem mem_skipInsert {α : Type} [DecidableEq α] (x k : α) (l : List α) :
    x ∈ skipInsert k l ↔ x ∈ l ∨ x = k := by
  unfold skipInsert
  by_cases hk : k ∈ l
  · simp only [if_pos hk]
    constructor
    · exact fun h => Or.inl h
    · rintro (h | rfl)
      · exact h
      · exact hk
  · simp [if_neg hk]

/-- skipInsert is idempotent. -/
theorem skipInsert_idem {α : Type} [DecidableEq α] (k : α) (l : List α) :
    skipInsert k (skipInsert k l) = skipInsert k l := by
  unfold skipInsert
  by_cases hk : k ∈ l
  · simp [hk]
  · simp [hk]

/-- Inserting a fresh key into a dict appends its binding. -/
theorem assocInsert_of_none {α β : Type} [DecidableEq α]
    {l : List (α × β)} {k : α} (v : β) (h : assocLookup l k = none) :
    assocInsert l k v = l ++ [(k, v)] := by
  induction l with
  | nil => simp [assocInsert]
  | cons a t ih =>
    cases a with
    | mk a1 a2 =>
      simp only [assocLookup] at h
      by_cases hak : a1 = k
      · simp [hak] at h
      · simp only [assocInsert, if_neg hak, List.cons_append, List.cons.injEq,
          true_and]
        exact ih (by simpa [hak] using h)

/-- Lookup over a key-tagged map of a list. -/
theorem assocLookup_map_self {α β : Type} [DecidableEq α]
    (l : List α) (f : α → β) (k : α) :
    assocLookup (l.map (fun a => (a, f a))) k =
      if k ∈ l then some (f k) else none := by
  induction l with
  | nil => simp [assocLookup]
  | cons a t ih =>
    by_cases hak : a = k
    · subst hak
      simp [assocLookup]
    · simp [assocLookup, hak, ih, Ne.symm hak]

/-- write_mesh_data only touches the mesh cache, the mesh store and the mesh
counter: statistics, skip set, written groups, collections and objects pass
through unchanged. -/
theorem write_mesh_data_frame (e : Ent) (name dmat : String) (st : SIState) :
    (write_mesh_data e name dmat st).2.component_stats = st.component_stats ∧
    (write_mesh_data e name dmat st).2.component_skip = st.component_skip ∧
    (write_mesh_data e name dmat st).2.group_written = st.group_written ∧
    (write_mesh_data e name dmat st).2.collections = st.collections ∧
    (write_mesh_data e name dmat st).2.objects = st.objects := by
  unfold write_mesh_data
  dsimp only
  split
  · exact ⟨rfl, rfl, rfl, rfl, rfl⟩
  · split
    · exact ⟨rfl, rfl, rfl, rfl, rfl⟩
    · exact ⟨rfl, rfl, rfl, rfl, rfl⟩

/-! Claim C9: camera field of view. -/

/-- Claim C9, counterexample: a camera whose source reports the finite field
of view 0 is written in orthographic mode, not with the perspective angle
(math.pi times 0 over 180) times aspect that the claim's formula demands for
every reported field of view. -/
theorem write_camera_fov_zero_counterexample :
    write_camera_projection 1 (some 0) (some 1) = CamMode.ortho ∧
    write_camera_projection 1 (some 0) (some 1) ≠
      CamMode.persp (math_pi * 0 / 180 * effective_aspect 1 (some 1)) := by
  constructor
  · rfl
  · intro h
    simp [write_camera_projection] at h

/-- Claim C9 (amended): a camera reporting no field of view — or the field of
view 0, which the source's Python comparison with False also treats as unset —
is written in orthographic mode; any other reported field of view f yields the
angle (math.pi * f / 180) * aspect, where the aspect falls back to the
render-viewport ratio when the source reports a dynamic aspect (or an aspect
of 0); in particular a field of view of 60 with aspect 1.5 yields
(math.pi * 60 / 180) * 1.5. -/
theorem write_camera_projection_spec (ra : ℚ) (fov aspect : Option ℚ) :
    (fov = none ∨ fov = some 0 →
      write_camera_projection ra fov aspect = CamMode.ortho) ∧
    (∀ f : ℚ, fov = some f → f ≠ 0 →
      write_camera_projection ra fov aspect =
        CamMode.persp (math_pi * f / 180 * effective_aspect ra aspect)) ∧
    (aspect = none → effective_aspect ra aspect = ra) ∧
    write_camera_projection ra (some 60) (some (3 / 2)) =
      CamMode.persp (math_pi * 60 / 180 * (3 / 2)) := by
  refine ⟨?_, ?_, ?_, ?_⟩
  · rintro (rfl | rfl)
    · rfl
    · simp [write_camera_projection]
  · rintro f rfl hf
    simp [write_camera_projection, hf]
  · rintro rfl
    rfl
  · have h32 : ((3 : ℚ) / 2) ≠ 0 := by norm_num
    have h60 : ((60 : ℚ)) ≠ 0 := by norm_num
    simp [write_camera_projection, effective_aspect, h32, h60]

/-- Witness for C9's amended theorem at concrete cameras. -/
theorem write_camera_projection_spec_witness :
    write_camera_projection 2 (some 0) (some 3) = CamMode.ortho ∧
    write_camera_projection 2 (some 60) (some (3 / 2)) =
      CamMode.persp (math_pi * 60 / 180 * effective_aspect 2 (some (3 / 2))) :=
  ⟨(write_camera_projection_spec 2 (some 0) (some 3)).1 (Or.inr rfl),
   (write_camera_projection_spec 2 (some 60) (some (3 / 2))).2.1 60 rfl
     (by norm_num)⟩

/-! Claim C4: mesh-cache idempotence. -/

/-- Claim C4: once write_mesh_data has completed successfully for a
(name, default_material) key — returning a built mesh — the cache holds that
(mesh, alpha) result, and every call with the same key against a state whose
cache holds it returns the identical result and leaves the state unchanged,
whatever entity set is passed. -/
theorem write_mesh_data_cache_idempotent (e : Ent) (name dmat : String)
    (st st1 : SIState) (m : Nat) (a : Bool)
    (h : write_mesh_data e name dmat st = ((some m, a), st1)) :
    assocLookup st1.component_meshes (name, dmat) = some (m, a) ∧
    ∀ (e2 : Ent) (st2 : SIState),
      assocLookup st2.component_meshes (name, dmat) = some (m, a) →
      write_mesh_data e2 name dmat st2 = ((some m, a), st2) := by
  constructor
  · unfold write_mesh_data at h
    dsimp only at h
    rcases hl : assocLookup st.component_meshes (name, dmat) with _ | ⟨mv, av⟩
    · simp only [hl] at h
      by_cases hverts : (buildAcc e.faces dmat).verts = []
      · rw [if_pos hverts] at h
        simp at h
      · rw [if_neg hverts] at h
        simp only [Prod.mk.injEq, Option.some.injEq] at h
        obtain ⟨⟨hm, ha⟩, hst⟩ := h
        subst hm; subst ha; subst hst
        simpa using assocLookup_append_of_none (st.nextMesh, false) hl
    · simp only [hl] at h
      simp only [Prod.mk.injEq, Option.some.injEq] at h
      obtain ⟨⟨hm, ha⟩, hst⟩ := h
      subst hm; subst ha; subst hst
      exact hl
  · intro e2 st2 h2
    unfold write_mesh_data
    dsimp only
    rw [h2]

/-- Witness for C4: building the triangle mesh once caches it; a second call
with the same key returns the identical handle without rebuilding. -/
theorem write_mesh_data_cache_idempotent_witness :
    assocLookup (write_mesh_data entChair "Chair" "Material" {}).2.component_meshes
      ("Chair", "Material") = some (0, false) ∧
    write_mesh_data entChair "Chair" "Material"
        (write_mesh_data entChair "Chair" "Material" {}).2 =
      ((some 0, false), (write_mesh_data entChair "Chair" "Material" {}).2) := by
  have h : write_mesh_data entChair "Chair" "Material" {} =
      ((some 0, false), (write_mesh_data entChair "Chair" "Material" {}).2) := by
    decide
  have hmain := write_mesh_data_cache_idempotent entChair "Chair" "Material" {}
    (write_mesh_data entChair "Chair" "Material" {}).2 0 false h
  exact ⟨hmain.1, hmain.2 entChair _ hmain.1⟩

/-! Claim C3: write-pass short-circuit. -/

/-- Claim C3: a write_entities call on a component node whose
(name, default_material) key is in the skip set appends the composed
transform to that pair's occurrence statistics and returns at once: no mesh
is built, no object is created, nothing else in the importer state changes. -/
theorem write_entities_skip_frame (e : Ent) (name : String) (pt : Transform)
    (dmat : String) (pname : Option String) (lskip : List Nat) (st : SIState)
    (h : (name, dmat) ∈ st.component_skip) :
    write_entities e name pt dmat EntityType.component pname lskip st =
      { st with component_stats := st.component_stats ++ [((name, dmat), pt)] } := by
  cases e with
  | mk gs il fs => simp [write_entities, h]

/-- Witness for C3 at a concrete skipped component node. -/
theorem write_entities_skip_frame_witness :
    write_entities entChair "Chair" (Transform.base 5) "Material"
        EntityType.component none [] stSkipChair =
      { stSkipChair with component_stats :=
          stSkipChair.component_stats ++ [(("Chair", "Material"), Transform.base 5)] } :=
  write_entities_skip_frame entChair "Chair" (Transform.base 5) "Material"
    none [] stSkipChair (by decide)

/-! Objects-monotonicity of the write pass: every call only appends to the
created-objects list. -/

/-- When the node has no mesh, nodeObjects is a single meshless object named
after the node. -/
theorem nodeObjects_none (name : String) (pt : Transform) (pn : Option String)
    (nested : Nat) :
    ∃ hb, nodeObjects name pt pn none nested =
      [{ name := name, mesh := none, matrix_world := some pt, parent := pn,
         hideSet := hb }] := by
  unfold nodeObjects
  by_cases h : nested = 0 ∨ name = "_(Loose Entity)"
  · exact ⟨false, by rw [if_pos h]⟩
  · exact ⟨true, by rw [if_neg h]; rfl⟩

mutual

/-- write_entities only appends to the objects list. -/
theorem write_entities_objects_mono :
    ∀ (e : Ent) (name : String) (pt : Transform) (dmat : String)
      (et : EntityType) (pname : Option String) (lskip : List Nat)
      (st : SIState),
    ∃ l, (write_entities e name pt dmat et pname lskip st).objects =
      st.objects ++ l
  | .mk gs il fs, name, pt, dmat, et, pname, lskip, st => by
    by_cases hsk : et = EntityType.component ∧ (name, dmat) ∈ st.component_skip
    · exact ⟨[], by simp [write_entities, hsk]⟩
    · simp only [write_entities, if_neg hsk]
      obtain ⟨l1, h1⟩ := writeGroups_objects_mono gs pt dmat name lskip
        { (write_mesh_data (Ent.mk gs il fs) name dmat st).2 with
          objects := (write_mesh_data (Ent.mk gs il fs) name dmat st).2.objects ++
            nodeObjects name pt (parentNameOf pname)
              (write_mesh_data (Ent.mk gs il fs) name dmat st).1.1
              (gs.length + il.length) }
      obtain ⟨l2, h2⟩ := writeInsts_objects_mono il pt dmat name lskip _
      have hf := (write_mesh_data_frame (Ent.mk gs il fs) name dmat st).2.2.2.2
      refine ⟨nodeObjects name pt (parentNameOf pname)
          (write_mesh_data (Ent.mk gs il fs) name dmat st).1.1
          (gs.length + il.length) ++ (l1 ++ l2), ?_⟩
      rw [h2, h1]
      simp only [hf, List.append_assoc]

/-- writeGroups only appends to the objects list. -/
theorem writeGroups_objects_mono :
    ∀ (gs : GList) (pt : Transform) (dmat : String) (parentN : String)
      (lskip : List Nat) (st : SIState),
    ∃ l, (writeGroups gs pt dmat parentN lskip st).objects = st.objects ++ l
  | .nil, pt, dmat, parentN, lskip, st => ⟨[], by simp [writeGroups]⟩
  | .cons g sub rest, pt, dmat, parentN, lskip, st => by
    by_cases hh : g.hidden
    · obtain ⟨l, h⟩ := writeGroups_objects_mono rest pt dmat parentN lskip st
      exact ⟨l, by simpa [writeGroups, hh] using h⟩
    · by_cases hl : g.layer ∈ lskip
      · obtain ⟨l, h⟩ := writeGroups_objects_mono rest pt dmat parentN lskip st
        exact ⟨l, by simpa [writeGroups, hh, hl] using h⟩
      · obtain ⟨l1, h1⟩ := write_entities_objects_mono sub
          ("G-" ++ group_safe_name g.name) (pt.comp g.transform)
          (inherent_default_mat g.material dmat) EntityType.group
          (some parentN) lskip st
        obtain ⟨l2, h2⟩ := writeGroups_objects_mono rest pt dmat parentN lskip
          (write_entities sub ("G-" ++ group_safe_name g.name)
            (pt.comp g.transform) (inherent_default_mat g.material dmat)
            EntityType.group (some parentN) lskip st)
        refine ⟨l1 ++ l2, ?_⟩
        simp only [writeGroups, if_neg hh, if_neg hl]
        rw [h2, h1, List.append_assoc]

/-- writeInsts only appends to the objects list. -/
theorem writeInsts_objects_mono :
    ∀ (il : IList) (pt : Transform) (dmat : String) (parentN : String)
      (lskip : List Nat) (st : SIState),
    ∃ l, (writeInsts il pt dmat parentN lskip st).objects = st.objects ++ l
  | .nil, pt, dmat, parentN, lskip, st => ⟨[], by simp [writeInsts]⟩
  | .cons i defE rest, pt, dmat, parentN, lskip, st => by
    by_cases hh : i.hidden
    · obtain ⟨l, h⟩ := writeInsts_objects_mono rest pt dmat parentN lskip st
      exact ⟨l, by simpa [writeInsts, hh] using h⟩
    · by_cases hl : i.layer ∈ lskip
      · obtain ⟨l, h⟩ := writeInsts_objects_mono rest pt dmat parentN lskip st
        exact ⟨l, by simpa [writeInsts, hh, hl] using h⟩
      · obtain ⟨l1, h1⟩ := write_entities_objects_mono defE
          (if i.instName = "" then "C-" ++ i.defName
           else i.instName ++ " (C-" ++ i.defName ++ ")")
          (pt.comp i.transform) (inherent_default_mat i.material dmat)
          EntityType.component (some parentN) lskip st
        obtain ⟨l2, h2⟩ := writeInsts_objects_mono rest pt dmat parentN lskip
          (write_entities defE
            (if i.instName = "" then "C-" ++ i.defName
             else i.instName ++ " (C-" ++ i.defName ++ ")")
            (pt.comp i.transform) (inherent_default_mat i.material dmat)
            EntityType.component (some parentN) lskip st)
        refine ⟨l1 ++ l2, ?_⟩
        simp only [writeInsts, if_neg hh, if_neg hl]
        rw [h2, h1, List.append_assoc]

end

/-! Claim C5: empty-geometry recovery. -/

/-- Claim C5, counterexample: an entity set whose faces yield zero vertices
does not always make write_mesh_data return no mesh — when the
(name, default_material) key is already in the mesh cache (the cache check
precedes the face loop), the cached mesh is returned instead of None. -/
theorem write_mesh_data_cached_empty_counterexample :
    (buildAcc (Ent.faces entEmpty) "Material").verts = [] ∧
    write_mesh_data entEmpty "E" "Material" stCachedE =
      ((some 7, false), stCachedE) ∧
    (write_mesh_data entEmpty "E" "Material" stCachedE).1.1 ≠ none := by
  refine ⟨rfl, rfl, ?_⟩
  intro h
  simp [write_mesh_data, stCachedE, assocLookup] at h

/-- Claim C5 (amended): for an entity set whose faces yield zero vertices and
whose (name, default_material) key is not already in the mesh cache,
write_mesh_data returns no mesh (None) and leaves the state unchanged, and a
write_entities visit of the node (one not short-circuited by the skip set)
still creates a node — an object named after the entity holding no mesh
data — so an empty face set never aborts the import. -/
theorem write_mesh_data_empty_recovery (e : Ent) (name : String)
    (pt : Transform) (dmat : String) (et : EntityType) (pname : Option String)
    (lskip : List Nat) (st : SIState)
    (hnc : assocLookup st.component_meshes (name, dmat) = none)
    (hv : (buildAcc (Ent.faces e) dmat).verts = [])
    (hns : ¬(et = EntityType.component ∧ (name, dmat) ∈ st.component_skip)) :
    write_mesh_data e name dmat st = ((none, false), st) ∧
    ∃ ob rest, (write_entities e name pt dmat et pname lskip st).objects =
      st.objects ++ ob :: rest ∧ ob.name = name ∧ ob.mesh = none := by
  have hw : write_mesh_data e name dmat st = ((none, false), st) := by
    unfold write_mesh_data
    dsimp only
    simp only [hnc]
    rw [if_pos hv]
  refine ⟨hw, ?_⟩
  cases e with
  | mk gs il fs =>
    simp only [write_entities, if_neg hns]
    rw [hw]
    obtain ⟨hb, hnode⟩ := nodeObjects_none name pt (parentNameOf pname)
      (gs.length + il.length)
    obtain ⟨l1, h1⟩ := writeGroups_objects_mono gs pt dmat name lskip
      { st with objects := st.objects ++
          nodeObjects name pt (parentNameOf pname) none (gs.length + il.length) }
    obtain ⟨l2, h2⟩ := writeInsts_objects_mono il pt dmat name lskip _
    refine ⟨{ name := name, mesh := none, matrix_world := some pt,
              parent := parentNameOf pname, hideSet := hb }, l1 ++ l2, ?_,
      rfl, rfl⟩
    rw [h2, h1]
    simp only [hnode, List.append_assoc, List.cons_append, List.nil_append,
      List.singleton_append]

/-- Witness for C5's amended theorem: an empty group node still yields an
object, with no mesh data. -/
theorem write_mesh_data_empty_recovery_witness :
    write_mesh_data entEmpty "G-Box" "Material" {} = ((none, false), {}) ∧
    ∃ ob rest,
      (write_entities entEmpty "G-Box" Transform.ident "Material"
        EntityType.group none [] {}).objects =
      SIState.objects {} ++ ob :: rest ∧ ob.name = "G-Box" ∧ ob.mesh = none :=
  write_mesh_data_empty_recovery entEmpty "G-Box" Transform.ident "Material"
    EntityType.group none [] {} (by decide) (by decide) (by decide)

/-! Claim C6: hidden-layer filtering. -/

/-- Claim C6: a group or instance whose layer is in the hidden-layer set
contributes nothing: the analysis loops record no entry for it or anything
beneath it (processing the remaining siblings as if it were absent), and the
write-pass loops create no object for it or anything beneath it. -/
theorem hidden_layer_filtering (g : GInfo) (sub : Ent) (grest : GList)
    (i : IInfo) (defE : Ent) (irest : IList) (t pt : Transform)
    (dmat : String) (parentN : String) (cskip : List MKey) (lskip : List Nat)
    (stats : Stats) (st : SIState)
    (hg : g.layer ∈ lskip) (hi : i.layer ∈ lskip) :
    analyzeGroups (GList.cons g sub grest) t dmat lskip stats =
      analyzeGroups grest t dmat lskip stats ∧
    analyzeInsts (IList.cons i defE irest) t dmat cskip lskip stats =
      analyzeInsts irest t dmat cskip lskip stats ∧
    writeGroups (GList.cons g sub grest) pt dmat parentN lskip st =
      writeGroups grest pt dmat parentN lskip st ∧
    writeInsts (IList.cons i defE irest) pt dmat parentN lskip st =
      writeInsts irest pt dmat parentN lskip st := by
  refine ⟨?_, ?_, ?_, ?_⟩
  · simp [analyzeGroups, hg]
  · simp [analyzeInsts, hi]
  · by_cases hh : g.hidden <;> simp [writeGroups, hg, hh]
  · by_cases hh : i.hidden <;> simp [writeInsts, hi, hh]

/-- Witness for C6 at a concrete hidden-layer group and instance. -/
theorem hidden_layer_filtering_witness :
    analyzeGroups
        (GList.cons { name := "Box", layer := 3, hidden := false,
                      material := none, transform := Transform.base 4 }
          entChair GList.nil) Transform.ident "Material" [3] [] =
      analyzeGroups GList.nil Transform.ident "Material" [3] [] ∧
    analyzeInsts (IList.cons { iChair with layer := 3 } entChair IList.nil)
        Transform.ident "Material" [] [3] [] =
      analyzeInsts IList.nil Transform.ident "Material" [] [3] [] ∧
    writeGroups
        (GList.cons { name := "Box", layer := 3, hidden := false,
                      material := none, transform := Transform.base 4 }
          entChair GList.nil) Transform.ident "Material" "P" [3] {} =
      writeGroups GList.nil Transform.ident "Material" "P" [3] {} ∧
    writeInsts (IList.cons { iChair with layer := 3 } entChair IList.nil)
        Transform.ident "Material" "P" [3] {} =
      writeInsts IList.nil Transform.ident "Material" "P" [3] {} :=
  hidden_layer_filtering
    { name := "Box", layer := 3, hidden := false, material := none,
      transform := Transform.base 4 } entChair GList.nil
    { iChair with layer := 3 } entChair IList.nil Transform.ident
    Transform.ident "Material" "P" [] [3] [] {} (by decide) (by decide)

/-! Claim C7: analysis completeness — the analysis traversal, as invoked from
write_duplicateable_groups, consults an empty component-skip set everywhere. -/

mutual

/-- With the empty skip list (the only value reachable from
write_duplicateable_groups, whose top call and whose recursive calls both
default component_skip to empty), the analysis traversal equals the traversal
with the skip consultation removed. -/
theorem analyze_entities_nil_skip_aux :
    ∀ (e : Ent) (name : String) (t : Transform) (dmat : String)
      (et : EntityType) (stats : Stats) (lskip : List Nat),
    analyze_entities e name t dmat et stats [] lskip =
      analyze_full e name t dmat et stats lskip
  | .mk gs il fs, name, t, dmat, et, stats, lskip => by
    simp only [analyze_entities, analyze_full]
    rw [analyzeGroups_nil_skip_aux, analyzeInsts_nil_skip_aux]

/-- Group-loop case of the empty-skip equality. -/
theorem analyzeGroups_nil_skip_aux :
    ∀ (gs : GList) (t : Transform) (dmat : String) (lskip : List Nat)
      (stats : Stats),
    analyzeGroups gs t dmat lskip stats = analyzeFullGroups gs t dmat lskip stats
  | .nil, t, dmat, lskip, stats => rfl
  | .cons g sub rest, t, dmat, lskip, stats => by
    by_cases hl : g.layer ∈ lskip
    · simp only [analyzeGroups, analyzeFullGroups, if_pos hl]
      exact analyzeGroups_nil_skip_aux rest t dmat lskip stats
    · simp only [analyzeGroups, analyzeFullGroups, if_neg hl]
      rw [analyze_entities_nil_skip_aux]
      exact analyzeGroups_nil_skip_aux rest t dmat lskip _

/-- Instance-loop case of the empty-skip equality: membership in the empty
skip list never holds, so no instance is dropped. -/
theorem analyzeInsts_nil_skip_aux :
    ∀ (il : IList) (t : Transform) (dmat : String) (lskip : List Nat)
      (stats : Stats),
    analyzeInsts il t dmat [] lskip stats = analyzeFullInsts il t dmat lskip stats
  | .nil, t, dmat, lskip, stats => rfl
  | .cons i defE rest, t, dmat, lskip, stats => by
    by_cases hl : i.layer ∈ lskip
    · simp only [analyzeInsts, analyzeFullInsts, if_pos hl]
      exact analyzeInsts_nil_skip_aux rest t dmat lskip stats
    · simp only [analyzeInsts, analyzeFullInsts, if_neg hl,
        List.not_mem_nil, if_false]
      rw [analyze_entities_nil_skip_aux]
      exact analyzeInsts_nil_skip_aux rest t dmat lskip _

end

/-- Claim C7: the analysis pass run by write_duplicateable_groups — which
passes the default empty component-skip list, as do both recursive calls of
analyze_entities — never early-terminates on an already-skipped component:
it coincides with the traversal that visits and counts every
non-hidden-layer component occurrence. -/
theorem analyze_entities_completeness (e : Ent) (name : String)
    (t : Transform) (dmat : String) (et : EntityType) (stats : Stats)
    (lskip : List Nat) :
    analyze_entities e name t dmat et stats [] lskip =
      analyze_full e name t dmat et stats lskip :=
  analyze_entities_nil_skip_aux e name t dmat et stats lskip

/-! Claim C10: the hidden flag is consulted by the write pass only. -/

mutual

/-- The analysis traversal only appends to the statistics. -/
theorem analyze_entities_stats_mono :
    ∀ (e : Ent) (name : String) (t : Transform) (dmat : String)
      (et : EntityType) (stats : Stats) (cskip : List MKey)
      (lskip : List Nat),
    ∃ l, analyze_entities e name t dmat et stats cskip lskip = stats ++ l
  | .mk gs il fs, name, t, dmat, et, stats, cskip, lskip => by
    simp only [analyze_entities]
    obtain ⟨l1, h1⟩ := analyzeGroups_stats_mono gs t dmat lskip
      (if et = EntityType.component then stats ++ [((name, dmat), t)] else stats)
    obtain ⟨l2, h2⟩ := analyzeInsts_stats_mono il t dmat cskip lskip
      (analyzeGroups gs t dmat lskip
        (if et = EntityType.component then stats ++ [((name, dmat), t)] else stats))
    rw [h2, h1]
    by_cases he : et = EntityType.component
    · exact ⟨[((name, dmat), t)] ++ (l1 ++ l2), by
        simp [he, List.append_assoc]⟩
    · exact ⟨l1 ++ l2, by simp [he, List.append_assoc]⟩

/-- The analysis group loop only appends to the statistics. -/
theorem analyzeGroups_stats_mono :
    ∀ (gs : GList) (t : Transform) (dmat : String) (lskip : List Nat)
      (stats : Stats),
    ∃ l, analyzeGroups gs t dmat lskip stats = stats ++ l
  | .nil, t, dmat, lskip, stats => ⟨[], by simp [analyzeGroups]⟩
  | .cons g sub rest, t, dmat, lskip, stats => by
    by_cases hl : g.layer ∈ lskip
    · obtain ⟨l, h⟩ := analyzeGroups_stats_mono rest t dmat lskip stats
      exact ⟨l, by simpa [analyzeGroups, hl] using h⟩
    · obtain ⟨l1, h1⟩ := analyze_entities_stats_mono sub ("G-" ++ g.name)
        (t.comp g.transform) (inherent_default_mat g.material dmat)
        EntityType.group stats [] lskip
      obtain ⟨l2, h2⟩ := analyzeGroups_stats_mono rest t dmat lskip
        (analyze_entities sub ("G-" ++ g.name) (t.comp g.transform)
          (inherent_default_mat g.material dmat) EntityType.group stats [] lskip)
      refine ⟨l1 ++ l2, ?_⟩
      simp only [analyzeGroups, if_neg hl]
      rw [h2, h1, List.append_assoc]

/-- The analysis instance loop only appends to the statistics. -/
theorem analyzeInsts_stats_mono :
    ∀ (il : IList) (t : Transform) (dmat : String) (cskip : List MKey)
      (lskip : List Nat) (stats : Stats),
    ∃ l, analyzeInsts il t dmat cskip lskip stats = stats ++ l
  | .nil, t, dmat, cskip, lskip, stats => ⟨[], by simp [analyzeInsts]⟩
  | .cons i defE rest, t, dmat, cskip, lskip, stats => by
    by_cases hl : i.layer ∈ lskip
    · obtain ⟨l, h⟩ := analyzeInsts_stats_mono rest t dmat cskip lskip stats
      exact ⟨l, by simpa [analyzeInsts, hl] using h⟩
    · by_cases hc : (i.defName, inherent_default_mat i.material dmat) ∈ cskip
      · obtain ⟨l, h⟩ := analyzeInsts_stats_mono rest t dmat cskip lskip stats
        exact ⟨l, by simpa [analyzeInsts, hl, hc] using h⟩
      · obtain ⟨l1, h1⟩ := analyze_entities_stats_mono defE i.defName
          (t.comp i.transform) (inherent_default_mat i.material dmat)
          EntityType.component stats [] lskip
        obtain ⟨l2, h2⟩ := analyzeInsts_stats_mono rest t dmat cskip lskip
          (analyze_entities defE i.defName (t.comp i.transform)
            (inherent_default_mat i.material dmat) EntityType.component stats
            [] lskip)
        refine ⟨l1 ++ l2, ?_⟩
        simp only [analyzeInsts, if_neg hl, if_neg hc]
        rw [h2, h1, List.append_assoc]

end

/-- Claim C10: the per-entity hidden flag is consulted only by the write
pass.  The analysis loops are invariant under any change of a node's hidden
flag; in particular a hidden instance on a visible layer still has its
(definition-name, effective-material) occurrence, at the composed transform,
recorded in the statistics — so it influences deduplication counts — while
the write-pass loops skip a hidden group or instance entirely. -/
theorem hidden_flag_asymmetry (g : GInfo) (sub : Ent) (grest : GList)
    (i : IInfo) (defE : Ent) (irest : IList) (t pt : Transform)
    (dmat : String) (parentN : String) (lskip : List Nat) (stats : Stats)
    (st : SIState)
    (hgh : g.hidden = true) (hih : i.hidden = true) (hil : i.layer ∉ lskip) :
    (∀ b : Bool,
      analyzeGroups (GList.cons { g with hidden := b } sub grest) t dmat lskip stats =
        analyzeGroups (GList.cons g sub grest) t dmat lskip stats) ∧
    (∀ b : Bool,
      analyzeInsts (IList.cons { i with hidden := b } defE irest) t dmat [] lskip stats =
        analyzeInsts (IList.cons i defE irest) t dmat [] lskip stats) ∧
    ((i.defName, inherent_default_mat i.material dmat), t.comp i.transform) ∈
      analyzeInsts (IList.cons i defE irest) t dmat [] lskip stats ∧
    writeGroups (GList.cons g sub grest) pt dmat parentN lskip st =
      writeGroups grest pt dmat parentN lskip st ∧
    writeInsts (IList.cons i defE irest) pt dmat parentN lskip st =
      writeInsts irest pt dmat parentN lskip st := by
  refine ⟨?_, ?_, ?_, ?_, ?_⟩
  · intro b
    simp [analyzeGroups]
  · intro b
    simp [analyzeInsts]
  · simp only [analyzeInsts, if_neg hil, List.not_mem_nil, if_false]
    obtain ⟨l1, h1⟩ := analyze_entities_stats_mono defE i.defName
      (t.comp i.transform) (inherent_default_mat i.material dmat)
      EntityType.component stats [] lskip
    obtain ⟨l2, h2⟩ := analyzeInsts_stats_mono irest t dmat [] lskip
      (analyze_entities defE i.defName (t.comp i.transform)
        (inherent_default_mat i.material dmat) EntityType.component stats [] lskip)
    rw [h2]
    have hin : ((i.defName, inherent_default_mat i.material dmat),
        t.comp i.transform) ∈
        analyze_entities defE i.defName (t.comp i.transform)
          (inherent_default_mat i.material dmat) EntityType.component stats [] lskip := by
      cases defE with
      | mk gs2 il2 fs2 =>
        simp only [analyze_entities, eq_self_iff_true, if_true]
        obtain ⟨la, ha⟩ := analyzeGroups_stats_mono gs2 (t.comp i.transform)
          (inherent_default_mat i.material dmat) lskip
          (stats ++ [((i.defName, inherent_default_mat i.material dmat),
            t.comp i.transform)])
        obtain ⟨lb, hb⟩ := analyzeInsts_stats_mono il2 (t.comp i.transform)
          (inherent_default_mat i.material dmat) [] lskip
          (analyzeGroups gs2 (t.comp i.transform)
            (inherent_default_mat i.material dmat) lskip
            (stats ++ [((i.defName, inherent_default_mat i.material dmat),
              t.comp i.transform)]))
        rw [hb, ha]
        simp
    exact List.mem_append.mpr (Or.inl hin)
  · simp [writeGroups, hgh]
  · simp [writeInsts, hih]

/-- Witness for C10 at a concrete hidden group and hidden instance on visible
layers. -/
theorem hidden_flag_asymmetry_witness :
    (∀ b : Bool,
      analyzeGroups
          (GList.cons { name := "Box", layer := 0, hidden := b,
                        material := none, transform := Transform.base 4 }
            entChair GList.nil) Transform.ident "Material" [] [] =
        analyzeGroups
          (GList.cons { name := "Box", layer := 0, hidden := true,
                        material := none, transform := Transform.base 4 }
            entChair GList.nil) Transform.ident "Material" [] []) ∧
    (∀ b : Bool,
      analyzeInsts
          (IList.cons { iChair with hidden := b } entChair IList.nil)
            Transform.ident "Material" [] [] [] =
        analyzeInsts
          (IList.cons { iChair with hidden := true } entChair IList.nil)
            Transform.ident "Material" [] [] []) ∧
    (("Chair", "Material"), Transform.ident.comp (Transform.base 1)) ∈
      analyzeInsts (IList.cons { iChair with hidden := true } entChair IList.nil)
        Transform.ident "Material" [] [] [] ∧
    writeGroups
        (GList.cons { name := "Box", layer := 0, hidden := true,
                      material := none, transform := Transform.base 4 }
          entChair GList.nil) Transform.ident "Material" "P" [] {} =
      writeGroups GList.nil Transform.ident "Material" "P" [] {} ∧
    writeInsts (IList.cons { iChair with hidden := true } entChair IList.nil)
        Transform.ident "Material" "P" [] {} =
      writeInsts IList.nil Transform.ident "Material" "P" [] {} :=
  hidden_flag_asymmetry
    { name := "Box", layer := 0, hidden := true, material := none,
      transform := Transform.base 4 } entChair GList.nil
    { iChair with hidden := true } entChair IList.nil Transform.ident
    Transform.ident "Material" "P" [] [] {} rfl rfl (by decide)

/-! Claim C8: orientation clustering. -/

/-- Lookup after one defaultdict append: the touched key's list gains the
location, every other key is untouched. -/
theorem assocLookup_orientInsert (acc : List ((V3 × V4) × List V3))
    (k0 : V3 × V4) (loc : V3) (k : V3 × V4) :
    assocLookup (orientInsert acc k0 loc) k =
      if k = k0 then
        match assocLookup acc k0 with
        | some l => some (l ++ [loc])
        | none => some [loc]
      else assocLookup acc k := by
  induction acc with
  | nil =>
    by_cases hk : k = k0
    · subst hk
      simp [orientInsert, assocLookup]
    · simp [orientInsert, assocLookup, hk, Ne.symm hk]
  | cons a t ih =>
    obtain ⟨a1, a2⟩ := a
    by_cases ha : a1 = k0
    · subst ha
      by_cases hk : k = a1
      · subst hk
        simp [orientInsert, assocLookup]
      · simp [orientInsert, assocLookup, hk, Ne.symm hk]
    · by_cases hk : k = k0
      · subst hk
        simp only [orientInsert, if_neg ha]
        have hak : a1 ≠ k := fun h => ha (h.symm ▸ rfl)
        simp [assocLookup, hak, ih, ha]
      · by_cases hak : a1 = k
        · subst hak
          simp [orientInsert, assocLookup, ha, hk]
        · simp [orientInsert, assocLookup, ha, hak, hk, ih]

/-- The keys after one defaultdict append: unchanged when the key exists,
else the key joins at the end. -/
theorem keys_orientInsert (acc : List ((V3 × V4) × List V3)) (k : V3 × V4)
    (loc : V3) :
    (orientInsert acc k loc).map Prod.fst =
      if k ∈ acc.map Prod.fst then acc.map Prod.fst
      else acc.map Prod.fst ++ [k] := by
  induction acc with
  | nil => simp [orientInsert]
  | cons a t ih =>
    obtain ⟨a1, a2⟩ := a
    by_cases ha : a1 = k
    · subst ha
      simp [orientInsert]
    · have hka : ¬ k = a1 := fun h => ha h.symm
      by_cases hmem : k ∈ t.map Prod.fst
      · simp [orientInsert, ha, ih, hmem, hka]
      · simp [orientInsert, ha, ih, hmem, hka]

/-- Every cluster list stays nonempty through one defaultdict append. -/
theorem orientInsert_nonempty (acc : List ((V3 × V4) × List V3))
    (k : V3 × V4) (loc : V3)
    (h : ∀ cl ∈ acc, cl.2 ≠ []) :
    ∀ cl ∈ orientInsert acc k loc, cl.2 ≠ [] := by
  induction acc with
  | nil =>
    intro cl hcl
    simp only [orientInsert, List.mem_singleton] at hcl
    subst hcl
    simp
  | cons a t ih =>
    obtain ⟨a1, a2⟩ := a
    intro cl hcl
    by_cases ha : a1 = k
    · simp only [orientInsert, if_pos ha, List.mem_cons] at hcl
      rcases hcl with rfl | hcl
      · simp
      · exact h cl (List.mem_cons_of_mem _ hcl)
    · simp only [orientInsert, if_neg ha, List.mem_cons] at hcl
      rcases hcl with rfl | hcl
      · exact h (a1, a2) (List.mem_cons_self _ _)
      · exact ih (fun c hc => h c (List.mem_cons_of_mem _ hc)) cl hcl

/-- Characterization of the grouping fold: starting from any accumulator, a
key's final list is its accumulated list extended by the locations of exactly
the occurrences carrying that key, in order. -/
theorem get_orientations_fold (dec : Transform → DecT) (v : List Transform)
    (acc : List ((V3 × V4) × List V3)) (k : V3 × V4) :
    assocLookup (v.foldl (fun a t => orientInsert a (okey dec t) (oloc dec t)) acc) k =
      match assocLookup acc k with
      | some l => some (l ++ (v.filter (fun t => okey dec t = k)).map (oloc dec))
      | none =>
        if ((v.filter (fun t => okey dec t = k)).map (oloc dec)) = [] then none
        else some ((v.filter (fun t => okey dec t = k)).map (oloc dec)) := by
  induction v generalizing acc with
  | nil =>
    rcases hl : assocLookup acc k with _ | l
    · simp [hl]
    · simp [hl]
  | cons t v' ih =>
    simp only [List.foldl_cons]
    rw [ih (orientInsert acc (okey dec t) (oloc dec t))]
    rw [assocLookup_orientInsert]
    by_cases hk : okey dec t = k
    · have hk' : k = okey dec t := hk.symm
      rw [if_pos hk']
      rcases hl : assocLookup acc (okey dec t) with _ | l
      · rw [hk] at hl
        simp [hl, List.filter_cons, hk]
      · rw [hk] at hl
        simp [hl, List.filter_cons, hk]
    · have hk' : ¬ k = okey dec t := fun h => hk h.symm
      rw [if_neg hk']
      simp [List.filter_cons, hk]

/-- mesh-store monotonicity of the dupli-vert cluster loop. -/
theorem dupliVertFold_mesh_mono (name dmat : String)
    (cls : List ((V3 × V4) × List V3)) (st : SIState) :
    ∃ l, (cls.foldl (dupliVertStep name dmat) st).mesh_data =
      st.mesh_data ++ l := by
  induction cls generalizing st with
  | nil => exact ⟨[], by simp⟩
  | cons cl rest ih =>
    obtain ⟨l, h⟩ := ih (dupliVertStep name dmat st cl)
    refine ⟨[(st.nextMesh, { verts := dupli_cluster_verts cl.2 })] ++ l, ?_⟩
    rw [List.foldl_cons, h]
    simp [dupliVertStep, List.append_assoc]

/-- Claim C8: in instance_group_dupli_vert the recorded occurrences of a
(component, material) pair are clustered by exact equality of the decomposed
(scale, rotation): the cluster of a key holds precisely the locations of the
occurrences decomposing to that key, in order (so two occurrences share a
cluster exactly when scale and rotation both agree, wherever they are
located), cluster keys are pairwise distinct, every cluster is nonempty, and
the DUPLI mesh written for a cluster stores each member's location as an
offset from the first member's location. -/
theorem instance_group_dupli_vert_clustering (dec : Transform → DecT)
    (stats : Stats) (name dmat : String) (st : SIState) :
    (∀ k : V3 × V4,
      assocLookup (get_orientations dec (statsOf stats (name, dmat))) k =
        if (((statsOf stats (name, dmat)).filter
              (fun t => okey dec t = k)).map (oloc dec)) = [] then none
        else some (((statsOf stats (name, dmat)).filter
              (fun t => okey dec t = k)).map (oloc dec))) ∧
    ((get_orientations dec (statsOf stats (name, dmat))).map Prod.fst).Nodup ∧
    (∀ cl ∈ get_orientations dec (statsOf stats (name, dmat)),
      cl.2 ≠ [] ∧
      ∃ mid, (mid,
          ({ verts := cl.2.map (fun c => vsub c cl.2.headI) } : MeshData)) ∈
        (instance_group_dupli_vert dec name dmat stats st).mesh_data) := by
  refine ⟨?_, ?_, ?_⟩
  · intro k
    have h := get_orientations_fold dec (statsOf stats (name, dmat)) [] k
    simpa [get_orientations, assocLookup] using h
  · have hgen : ∀ (v : List Transform) (acc : List ((V3 × V4) × List V3)),
        (acc.map Prod.fst).Nodup →
        ((v.foldl (fun a t => orientInsert a (okey dec t) (oloc dec t)) acc).map
          Prod.fst).Nodup := by
      intro v
      induction v with
      | nil => intro acc h; simpa using h
      | cons t v' ih =>
        intro acc h
        simp only [List.foldl_cons]
        apply ih
        rw [keys_orientInsert]
        by_cases hmem : okey dec t ∈ acc.map Prod.fst
        · simpa [hmem] using h
        · rw [if_neg hmem]
          refine List.Nodup.append h (List.nodup_singleton _) ?_
          intro x hx hx'
          simp only [List.mem_singleton] at hx'
          subst hx'
          exact hmem hx
    exact hgen (statsOf stats (name, dmat)) [] (by simp)
  · have hne : ∀ cl ∈ get_orientations dec (statsOf stats (name, dmat)),
        cl.2 ≠ [] := by
      have hgen : ∀ (v : List Transform) (acc : List ((V3 × V4) × List V3)),
          (∀ cl ∈ acc, cl.2 ≠ []) →
          ∀ cl ∈ v.foldl (fun a t => orientInsert a (okey dec t) (oloc dec t)) acc,
            cl.2 ≠ [] := by
        intro v
        induction v with
        | nil => intro acc h; simpa using h
        | cons t v' ih =>
          intro acc h
          simp only [List.foldl_cons]
          exact ih _ (orientInsert_nonempty acc _ _ h)
      exact hgen (statsOf stats (name, dmat)) [] (by simp)
    intro cl hcl
    refine ⟨hne cl hcl, ?_⟩
    have hmem : ∀ (cls : List ((V3 × V4) × List V3)) (st0 : SIState),
        ∀ c ∈ cls, ∃ mid, (mid,
            ({ verts := dupli_cluster_verts c.2 } : MeshData)) ∈
          (cls.foldl (dupliVertStep name dmat) st0).mesh_data := by
      intro cls
      induction cls with
      | nil => intro st0 c hc; simp at hc
      | cons c0 rest ih =>
        intro st0 c hc
        rcases List.mem_cons.mp hc with rfl | hc'
        · obtain ⟨l, h⟩ := dupliVertFold_mesh_mono name dmat rest
            (dupliVertStep name dmat st0 c)
          refine ⟨st0.nextMesh, ?_⟩
          rw [List.foldl_cons, h]
          simp [dupliVertStep]
        · exact ih (dupliVertStep name dmat st0 c0) c hc'
    have h := hmem (get_orientations dec (statsOf stats (name, dmat))) st cl hcl
    simpa [instance_group_dupli_vert, dupli_cluster_verts] using h

/-- Witness for C8 on three concrete occurrences: two share (scale,
rotation) and land in one cluster with offset vertices, the third differs in
rotation. -/
theorem instance_group_dupli_vert_clustering_witness :
    assocLookup (get_orientations decW (statsOf statsW ("Chair", "Material")))
        ((1, 1, 1), (1, 0, 0, 0)) =
      (if (((statsOf statsW ("Chair", "Material")).filter
            (fun t => okey decW t = ((1, 1, 1), (1, 0, 0, 0)))).map (oloc decW)) = []
       then none
       else some (((statsOf statsW ("Chair", "Material")).filter
            (fun t => okey decW t = ((1, 1, 1), (1, 0, 0, 0)))).map (oloc decW))) ∧
    (((1, 1, 1), (1, 0, 0, 0)), [((0 : ℚ), (0 : ℚ), (0 : ℚ)), (5, 0, 0)]).2 ≠ [] ∧
    ∃ mid, (mid,
        ({ verts := [((0 : ℚ), (0 : ℚ), (0 : ℚ)), (5, 0, 0)].map
            (fun c => vsub c ([((0 : ℚ), (0 : ℚ), (0 : ℚ)), (5, 0, 0)].headI)) } :
          MeshData)) ∈
      (instance_group_dupli_vert decW "Chair" "Material" statsW {}).mesh_data := by
  have h := instance_group_dupli_vert_clustering decW statsW "Chair" "Material" {}
  refine ⟨h.1 ((1, 1, 1), (1, 0, 0, 0)), ?_⟩
  exact h.2.2 (((1, 1, 1), (1, 0, 0, 0)), [(0, 0, 0), (5, 0, 0)]) (by decide)

/-! Claims C1 and C2: the deduplication driver.  First the frame facts of the
materialization pass: component_def_as_group never touches group_written or
the collection list, and its only skip-set effect is the outer call marking
its own pair. -/

mutual

/-- component_def_as_group leaves group_written and collections unchanged and
adds exactly its own (name, default_material) pair to the skip set when
called as the outer materialization (its only skip write), and nothing
otherwise. -/
theorem cdag_frame :
    ∀ (e : Ent) (name : String) (pt : Transform) (dmat : String)
      (et : EntityType) (group : String) (lskip : List Nat) (st : SIState),
    (component_def_as_group e name pt dmat et group lskip st).group_written =
      st.group_written ∧
    (component_def_as_group e name pt dmat et group lskip st).collections =
      st.collections ∧
    (component_def_as_group e name pt dmat et group lskip st).component_skip =
      (if et = EntityType.outer then skipInsert (name, dmat) st.component_skip
       else st.component_skip)
  | .mk gs il fs, name, pt, dmat, et, group, lskip, st => by
    by_cases ho : et = EntityType.outer
    · subst ho
      by_cases hm : (name, dmat) ∈ st.component_skip
      · have hret : component_def_as_group (Ent.mk gs il fs) name pt dmat
            EntityType.outer group lskip st = st := by
          simp [component_def_as_group, hm]
        rw [hret]
        refine ⟨rfl, rfl, ?_⟩
        rw [if_pos rfl]
        unfold skipInsert
        rw [if_pos hm]
      · have hbody : component_def_as_group (Ent.mk gs il fs) name pt dmat
            EntityType.outer group lskip st =
            cdagInsts il pt dmat group lskip (cdagGroups gs pt dmat group lskip
              (match (write_mesh_data (Ent.mk gs il fs) name dmat
                  { st with component_skip :=
                      skipInsert (name, dmat) st.component_skip }).1.1 with
               | some mid =>
                 { (write_mesh_data (Ent.mk gs il fs) name dmat
                     { st with component_skip :=
                         skipInsert (name, dmat) st.component_skip }).2 with
                   objects := (write_mesh_data (Ent.mk gs il fs) name dmat
                     { st with component_skip :=
                         skipInsert (name, dmat) st.component_skip }).2.objects ++
                     [{ name := name, mesh := some mid, matrix_world := some pt,
                        group_link := some group }] }
               | none =>
                 (write_mesh_data (Ent.mk gs il fs) name dmat
                   { st with component_skip :=
                       skipInsert (name, dmat) st.component_skip }).2)) := by
          simp [component_def_as_group, hm]
        rw [hbody]
        obtain ⟨hw1, hw2, hw3, hw4, hw5⟩ :=
          write_mesh_data_frame (Ent.mk gs il fs) name dmat
            { st with component_skip := skipInsert (name, dmat) st.component_skip }
        rcases hme : (write_mesh_data (Ent.mk gs il fs) name dmat
            { st with component_skip :=
                skipInsert (name, dmat) st.component_skip }).1.1
          with _ | mid
        · simp only [hme]
          obtain ⟨hg1, hg2, hg3⟩ := cdagGroups_frame gs pt dmat group lskip
            (write_mesh_data (Ent.mk gs il fs) name dmat
              { st with component_skip :=
                  skipInsert (name, dmat) st.component_skip }).2
          obtain ⟨hi1, hi2, hi3⟩ := cdagInsts_frame il pt dmat group lskip
            (cdagGroups gs pt dmat group lskip
              (write_mesh_data (Ent.mk gs il fs) name dmat
                { st with component_skip :=
                    skipInsert (name, dmat) st.component_skip }).2)
          simp only [eq_self_iff_true, if_true]
          exact ⟨by rw [hi1, hg1, hw3], by rw [hi2, hg2, hw4],
            by rw [hi3, hg3, hw2]⟩
        · simp only [hme]
          obtain ⟨hg1, hg2, hg3⟩ := cdagGroups_frame gs pt dmat group lskip
            { (write_mesh_data (Ent.mk gs il fs) name dmat
                { st with component_skip :=
                    skipInsert (name, dmat) st.component_skip }).2 with
              objects := (write_mesh_data (Ent.mk gs il fs) name dmat
                { st with component_skip :=
                    skipInsert (name, dmat) st.component_skip }).2.objects ++
                [{ name := name, mesh := some mid, matrix_world := some pt,
                   group_link := some group }] }
          obtain ⟨hi1, hi2, hi3⟩ := cdagInsts_frame il pt dmat group lskip _
          simp only [eq_self_iff_true, if_true]
          exact ⟨by rw [hi1, hg1]; exact hw3, by rw [hi2, hg2]; exact hw4,
            by rw [hi3, hg3]; exact hw2⟩
    · have hnc : ¬ (et = EntityType.outer ∧ (name, dmat) ∈ st.component_skip) :=
        fun h => ho h.1
      by_cases hcm : et = EntityType.component ∧ (name, dmat) ∈ st.component_skip
      · have hret : component_def_as_group (Ent.mk gs il fs) name pt dmat
            et group lskip st =
            { st with objects := st.objects ++
                [{ instance_object_or_group name dmat st with
                   matrix_world := some pt, group_link := some group }] } := by
          simp [component_def_as_group, hnc, hcm, ho]
        rw [hret, if_neg ho]
        exact ⟨rfl, rfl, rfl⟩
      · have hbody : component_def_as_group (Ent.mk gs il fs) name pt dmat
            et group lskip st =
            cdagInsts il pt dmat group lskip (cdagGroups gs pt dmat group lskip
              (match (write_mesh_data (Ent.mk gs il fs) name dmat st).1.1 with
               | some mid =>
                 { (write_mesh_data (Ent.mk gs il fs) name dmat st).2 with
                   objects := (write_mesh_data (Ent.mk gs il fs) name dmat st).2.objects ++
                     [{ name := name, mesh := some mid, matrix_world := some pt,
                        group_link := some group }] }
               | none => (write_mesh_data (Ent.mk gs il fs) name dmat st).2)) := by
          simp [component_def_as_group, hnc, hcm, ho]
        rw [hbody]
        obtain ⟨hw1, hw2, hw3, hw4, hw5⟩ :=
          write_mesh_data_frame (Ent.mk gs il fs) name dmat st
        rcases hme : (write_mesh_data (Ent.mk gs il fs) name dmat st).1.1
          with _ | mid
        · simp only [hme]
          obtain ⟨hg1, hg2, hg3⟩ := cdagGroups_frame gs pt dmat group lskip
            (write_mesh_data (Ent.mk gs il fs) name dmat st).2
          obtain ⟨hi1, hi2, hi3⟩ := cdagInsts_frame il pt dmat group lskip
            (cdagGroups gs pt dmat group lskip
              (write_mesh_data (Ent.mk gs il fs) name dmat st).2)
          rw [if_neg ho]
          exact ⟨by rw [hi1, hg1, hw3], by rw [hi2, hg2, hw4],
            by rw [hi3, hg3, hw2]⟩
        · simp only [hme]
          obtain ⟨hg1, hg2, hg3⟩ := cdagGroups_frame gs pt dmat group lskip
            { (write_mesh_data (Ent.mk gs il fs) name dmat st).2 with
              objects := (write_mesh_data (Ent.mk gs il fs) name dmat st).2.objects ++
                [{ name := name, mesh := some mid, matrix_world := some pt,
                   group_link := some group }] }
          obtain ⟨hi1, hi2, hi3⟩ := cdagInsts_frame il pt dmat group lskip _
          rw [if_neg ho]
          exact ⟨by rw [hi1, hg1]; exact hw3, by rw [hi2, hg2]; exact hw4,
            by rw [hi3, hg3]; exact hw2⟩

/-- The group loop of the materialization pass preserves group_written,
collections and the skip set. -/
theorem cdagGroups_frame :
    ∀ (gs : GList) (pt : Transform) (dmat : String) (group : String)
      (lskip : List Nat) (st : SIState),
    (cdagGroups gs pt dmat group lskip st).group_written = st.group_written ∧
    (cdagGroups gs pt dmat group lskip st).collections = st.collections ∧
    (cdagGroups gs pt dmat group lskip st).component_skip = st.component_skip
  | .nil, pt, dmat, group, lskip, st => ⟨rfl, rfl, rfl⟩
  | .cons g sub rest, pt, dmat, group, lskip, st => by
    by_cases hl : g.layer ∈ lskip
    · obtain ⟨h1, h2, h3⟩ := cdagGroups_frame rest pt dmat group lskip st
      simp only [cdagGroups, if_pos hl]
      exact ⟨h1, h2, h3⟩
    · obtain ⟨hc1, hc2, hc3⟩ := cdag_frame sub ("G-" ++ g.name)
        (pt.comp g.transform) (inherent_default_mat g.material dmat)
        EntityType.group group lskip st
      obtain ⟨h1, h2, h3⟩ := cdagGroups_frame rest pt dmat group lskip
        (component_def_as_group sub ("G-" ++ g.name) (pt.comp g.transform)
          (inherent_default_mat g.material dmat) EntityType.group group lskip st)
      simp only [cdagGroups, if_neg hl]
      refine ⟨by rw [h1, hc1], by rw [h2, hc2], ?_⟩
      rw [h3, hc3]
      simp

/-- The instance loop of the materialization pass preserves group_written,
collections and the skip set. -/
theorem cdagInsts_frame :
    ∀ (il : IList) (pt : Transform) (dmat : String) (group : String)
      (lskip : List Nat) (st : SIState),
    (cdagInsts il pt dmat group lskip st).group_written = st.group_written ∧
    (cdagInsts il pt dmat group lskip st).collections = st.collections ∧
    (cdagInsts il pt dmat group lskip st).component_skip = st.component_skip
  | .nil, pt, dmat, group, lskip, st => ⟨rfl, rfl, rfl⟩
  | .cons i defE rest, pt, dmat, group, lskip, st => by
    by_cases hl : i.layer ∈ lskip
    · obtain ⟨h1, h2, h3⟩ := cdagInsts_frame rest pt dmat group lskip st
      simp only [cdagInsts, if_pos hl]
      exact ⟨h1, h2, h3⟩
    · obtain ⟨hc1, hc2, hc3⟩ := cdag_frame defE i.defName
        (pt.comp i.transform) (inherent_default_mat i.material dmat)
        EntityType.component group lskip st
      obtain ⟨h1, h2, h3⟩ := cdagInsts_frame rest pt dmat group lskip
        (component_def_as_group defE i.defName (pt.comp i.transform)
          (inherent_default_mat i.material dmat) EntityType.component group
          lskip st)
      simp only [cdagInsts, if_neg hl]
      refine ⟨by rw [h1, hc1], by rw [h2, hc2], ?_⟩
      rw [h3, hc3]
      simp

end

/-- Unpacking the promotion condition. -/
theorem promotableAt_true_iff (comps : List (String × Ent))
    (cdepth : List (String × Nat)) (i : Nat) (k : MKey) :
    promotableAt comps cdepth i k = true ↔
      (assocLookup comps k.1).isSome = true ∧
      lookupD cdepth k.1 0 ≠ 1 ∧ lookupD cdepth k.1 0 = i := by
  unfold promotableAt
  simp [and_assoc]

/-- A promotable pair's depth is the current level. -/
theorem promotableAt_eq_level {comps : List (String × Ent)}
    {cdepth : List (String × Nat)} {i : Nat} {k : MKey}
    (h : promotableAt comps cdepth i k = true) : lookupD cdepth k.1 0 = i :=
  ((promotableAt_true_iff comps cdepth i k).mp h).2.2

/-- A recorded depth is bounded by the maximal depth. -/
theorem le_maxDepthOf {cdepth : List (String × Nat)} {n : String} {d : Nat}
    (h : assocLookup cdepth n = some d) : d ≤ maxDepthOf cdepth := by
  induction cdepth with
  | nil => simp [assocLookup] at h
  | cons a t ih =>
    obtain ⟨a1, a2⟩ := a
    simp only [assocLookup] at h
    by_cases ha : a1 = n
    · rw [if_pos ha] at h
      obtain rfl : a2 = d := by simpa using h
      simp [maxDepthOf]
    · rw [if_neg ha] at h
      have := ih h
      simp only [maxDepthOf, List.map_cons, List.foldr_cons]
      exact le_trans this (Nat.le_max_right _ _)

/-- Membership through the first-seen dedup accumulator. -/
theorem mem_firstSeen {α : Type} [DecidableEq α] :
    ∀ (l acc : List α) (x : α), x ∈ firstSeen l acc ↔ x ∈ acc ∨ x ∈ l := by
  intro l
  induction l with
  | nil => intro acc x; simp [firstSeen]
  | cons a t ih =>
    intro acc x
    by_cases ha : a ∈ acc
    · rw [firstSeen, if_pos ha, ih]
      constructor
      · rintro (h | h)
        · exact Or.inl h
        · exact Or.inr (List.mem_cons_of_mem _ h)
      · rintro (h | h)
        · exact Or.inl h
        · rcases List.mem_cons.mp h with rfl | h'
          · exact Or.inl ha
          · exact Or.inr h'
    · rw [firstSeen, if_neg ha, ih]
      simp [List.mem_append, or_assoc]

/-- The first-seen dedup keeps the accumulator duplicate-free. -/
theorem nodup_firstSeen {α : Type} [DecidableEq α] :
    ∀ (l acc : List α), acc.Nodup → (firstSeen l acc).Nodup := by
  intro l
  induction l with
  | nil => intro acc h; simpa [firstSeen] using h
  | cons a t ih =>
    intro acc h
    by_cases ha : a ∈ acc
    · rw [firstSeen, if_pos ha]
      exact ih acc h
    · rw [firstSeen, if_neg ha]
      refine ih (acc ++ [a]) ?_
      refine List.Nodup.append h (List.nodup_singleton _) ?_
      intro x hx hx'
      simp only [List.mem_singleton] at hx'
      subst hx'
      exact ha hx

/-- dedupKeys is membership-preserving. -/
theorem mem_dedupKeys {α : Type} [DecidableEq α] (l : List α) (x : α) :
    x ∈ dedupKeys l ↔ x ∈ l := by
  rw [dedupKeys, mem_firstSeen]
  simp

/-- dedupKeys is duplicate-free. -/
theorem dedupKeys_nodup {α : Type} [DecidableEq α] (l : List α) :
    (dedupKeys l).Nodup :=
  nodup_firstSeen l [] List.nodup_nil

/-- Unrolling one occurrence event from the count. -/
theorem countKey_cons (e : MKey × Transform) (t : Stats) (k : MKey) :
    countKey (e :: t) k = (if e.1 = k then 1 else 0) + countKey t k := by
  unfold countKey
  rw [List.filter_cons]
  by_cases he : e.1 = k
  · simp [he, Nat.add_comm]
  · simp [he]

/-- A key occurs among the statistics keys exactly when its count is
positive. -/
theorem mem_keys_iff_countKey_pos (stats : Stats) (k : MKey) :
    k ∈ stats.map Prod.fst ↔ 0 < countKey stats k := by
  induction stats with
  | nil => simp [countKey]
  | cons e t ih =>
    rw [countKey_cons]
    by_cases he : e.1 = k
    · simp [he]
    · have hek : ¬ k = e.1 := fun h => he h.symm
      simp [he, hek, ih]

/-- Candidate membership: the key occurs and meets the threshold. -/
theorem mem_dedup_candidates (stats : Stats) (thr : Nat) (k : MKey) :
    k ∈ dedup_candidates stats thr ↔
      0 < countKey stats k ∧ thr ≤ countKey stats k := by
  rw [dedup_candidates, List.mem_filter, mem_dedupKeys,
    mem_keys_iff_countKey_pos]
  simp

/-- The candidate list is duplicate-free. -/
theorem dedup_candidates_nodup (stats : Stats) (thr : Nat) :
    (dedup_candidates stats thr).Nodup :=
  List.Nodup.filter _ (dedupKeys_nodup _)

/-- One promotion step: the skip set gains the pair exactly when it is
promotable at the current level, the written-group map gains its binding to
the group name, the collection list only grows, and the group name is a
collection of the result whenever the pair was promotable. -/
theorem dedup_step_char (comps : List (String × Ent))
    (cdepth : List (String × Nat)) (reuse : Bool) (lskip : List Nat) (i : Nat)
    (k : MKey) (st : SIState) :
    (dedup_step comps cdepth reuse lskip i k st).component_skip =
      (if promotableAt comps cdepth i k = true then
        skipInsert k st.component_skip else st.component_skip) ∧
    (dedup_step comps cdepth reuse lskip i k st).group_written =
      (if promotableAt comps cdepth i k = true then
        assocInsert st.group_written k (group_name k.1 k.2)
       else st.group_written) ∧
    (∃ l, (dedup_step comps cdepth reuse lskip i k st).collections =
      st.collections ++ l) ∧
    (promotableAt comps cdepth i k = true →
      group_name k.1 k.2 ∈ (dedup_step comps cdepth reuse lskip i k st).collections) := by
  rcases hce : assocLookup comps k.1 with _ | ce
  · have hp : promotableAt comps cdepth i k = false := by
      simp [promotableAt, hce]
    have hres : dedup_step comps cdepth reuse lskip i k st = st := by
      simp [dedup_step, hce]
    rw [hres, hp]
    exact ⟨by simp, by simp, ⟨[], by simp⟩, by simp⟩
  · by_cases hd1 : lookupD cdepth k.1 0 = 1
    · have hp : promotableAt comps cdepth i k = false := by
        simp [promotableAt, hd1]
      have hres : dedup_step comps cdepth reuse lskip i k st = st := by
        simp [dedup_step, hce, hd1]
      rw [hres, hp]
      exact ⟨by simp, by simp, ⟨[], by simp⟩, by simp⟩
    · by_cases hdi : lookupD cdepth k.1 0 = i
      · have hp : promotableAt comps cdepth i k = true := by
          rw [promotableAt_true_iff]
          exact ⟨by simp [hce], hd1, hdi⟩
        have hi1 : i ≠ 1 := fun h => hd1 (by rw [hdi, h])
        by_cases hr : reuse = true ∧ group_name k.1 k.2 ∈ st.collections
        · have hres : dedup_step comps cdepth reuse lskip i k st =
              { st with
                component_skip := skipInsert k st.component_skip,
                group_written := assocInsert st.group_written k
                  (group_name k.1 k.2) } := by
            simp [dedup_step, hce, hd1, hdi, hi1, hr]
          rw [hres, hp]
          exact ⟨by simp, by simp, ⟨[], by simp⟩, fun _ => hr.2⟩
        · have hres : dedup_step comps cdepth reuse lskip i k st =
              { component_def_as_group ce k.1 Transform.ident k.2
                  EntityType.outer (group_name k.1 k.2) lskip
                  { st with collections :=
                      st.collections ++ [group_name k.1 k.2] } with
                component_skip := skipInsert k
                  (component_def_as_group ce k.1 Transform.ident k.2
                    EntityType.outer (group_name k.1 k.2) lskip
                    { st with collections :=
                        st.collections ++ [group_name k.1 k.2] }).component_skip,
                group_written := assocInsert
                  (component_def_as_group ce k.1 Transform.ident k.2
                    EntityType.outer (group_name k.1 k.2) lskip
                    { st with collections :=
                        st.collections ++ [group_name k.1 k.2] }).group_written
                  k (group_name k.1 k.2) } := by
            simp [dedup_step, hce, hd1, hdi, hi1, hr]
          obtain ⟨hc1, hc2, hc3⟩ := cdag_frame ce k.1 Transform.ident k.2
            EntityType.outer (group_name k.1 k.2) lskip
            { st with collections := st.collections ++ [group_name k.1 k.2] }
          rw [hres, hp]
          refine ⟨?_, ?_, ⟨[group_name k.1 k.2], ?_⟩, ?_⟩
          · dsimp only
            rw [hc3]
            simp only [eq_self_iff_true, if_true]
            exact skipInsert_idem k st.component_skip
          · dsimp only
            rw [hc1]
            simp
          · dsimp only
            exact hc2
          · intro _
            dsimp only
            rw [hc2]
            simp
      · have hp : promotableAt comps cdepth i k = false := by
          simp [promotableAt, hdi]
        have hres : dedup_step comps cdepth reuse lskip i k st = st := by
          simp [dedup_step, hce, hd1, hdi]
        rw [hres, hp]
        exact ⟨by simp, by simp, ⟨[], by simp⟩, by simp⟩

/-- One depth level of the candidate loop: the skip set gains exactly the
candidates promotable at this level, group_written gains this level's block
in candidate order, collections only grow, and every promoted candidate's
group name ends up among the collections. -/
theorem dedup_inner_char (comps : List (String × Ent))
    (cdepth : List (String × Nat)) (reuse : Bool) (lskip : List Nat) (i : Nat)
    (ks : List MKey) :
    ∀ (st : SIState), ks.Nodup →
    (∀ k ∈ ks, promotableAt comps cdepth i k = true →
      assocLookup st.group_written k = none) →
    ((∀ x : MKey,
        x ∈ (dedup_inner comps cdepth reuse lskip i ks st).component_skip ↔
        (x ∈ st.component_skip ∨
          (x ∈ ks ∧ promotableAt comps cdepth i x = true))) ∧
     (dedup_inner comps cdepth reuse lskip i ks st).group_written =
       st.group_written ++ blockAt comps cdepth ks i ∧
     (∃ l, (dedup_inner comps cdepth reuse lskip i ks st).collections =
       st.collections ++ l) ∧
     (∀ k ∈ ks, promotableAt comps cdepth i k = true →
       group_name k.1 k.2 ∈
         (dedup_inner comps cdepth reuse lskip i ks st).collections)) := by
  induction ks with
  | nil =>
    intro st _ _
    refine ⟨fun x => by simp [dedup_inner], by simp [dedup_inner, blockAt],
      ⟨[], by simp [dedup_inner]⟩, by simp⟩
  | cons k ks' ih =>
    intro st hnd hgw
    obtain ⟨hs1, hs2, ⟨lc, hs3⟩, hs4⟩ :=
      dedup_step_char comps cdepth reuse lskip i k st
    have hinner : dedup_inner comps cdepth reuse lskip i (k :: ks') st =
        dedup_inner comps cdepth reuse lskip i ks'
          (dedup_step comps cdepth reuse lskip i k st) := rfl
    have hknotin : k ∉ ks' := (List.nodup_cons.mp hnd).1
    have hnd' : ks'.Nodup := (List.nodup_cons.mp hnd).2
    have hgw' : ∀ k' ∈ ks', promotableAt comps cdepth i k' = true →
        assocLookup (dedup_step comps cdepth reuse lskip i k st).group_written
          k' = none := by
      intro k' hk' hp'
      rw [hs2]
      by_cases hpk : promotableAt comps cdepth i k = true
      · rw [if_pos hpk]
        have h0 : assocLookup st.group_written k = none :=
          hgw k (List.mem_cons_self _ _) hpk
        rw [assocInsert_of_none _ h0, assocLookup_append]
        have h1 : assocLookup st.group_written k' = none :=
          hgw k' (List.mem_cons_of_mem _ hk') hp'
        rw [h1]
        have hkk : ¬ k = k' := fun h => hknotin (h ▸ hk')
        simp [assocLookup, hkk]
      · rw [if_neg hpk]
        exact hgw k' (List.mem_cons_of_mem _ hk') hp'
    obtain ⟨ih1, ih2, ⟨lc2, ih3⟩, ih4⟩ :=
      ih (dedup_step comps cdepth reuse lskip i k st) hnd' hgw'
    refine ⟨?_, ?_, ⟨lc ++ lc2, ?_⟩, ?_⟩
    · intro x
      rw [hinner, ih1 x, hs1]
      by_cases hpk : promotableAt comps cdepth i k = true
      · rw [if_pos hpk, mem_skipInsert]
        constructor
        · rintro ((hx | rfl) | ⟨hx, hpx⟩)
          · exact Or.inl hx
          · exact Or.inr ⟨List.mem_cons_self _ _, hpk⟩
          · exact Or.inr ⟨List.mem_cons_of_mem _ hx, hpx⟩
        · rintro (hx | ⟨hx, hpx⟩)
          · exact Or.inl (Or.inl hx)
          · rcases List.mem_cons.mp hx with rfl | hx'
            · exact Or.inl (Or.inr rfl)
            · exact Or.inr ⟨hx', hpx⟩
      · rw [if_neg hpk]
        constructor
        · rintro (hx | ⟨hx, hpx⟩)
          · exact Or.inl hx
          · exact Or.inr ⟨List.mem_cons_of_mem _ hx, hpx⟩
        · rintro (hx | ⟨hx, hpx⟩)
          · exact Or.inl hx
          · rcases List.mem_cons.mp hx with rfl | hx'
            · exact absurd hpx hpk
            · exact Or.inr ⟨hx', hpx⟩
    · rw [hinner, ih2, hs2]
      by_cases hpk : promotableAt comps cdepth i k = true
      · rw [if_pos hpk]
        have h0 : assocLookup st.group_written k = none :=
          hgw k (List.mem_cons_self _ _) hpk
        rw [assocInsert_of_none _ h0]
        simp [blockAt, List.filter_cons, hpk, List.append_assoc]
      · rw [if_neg hpk]
        simp [blockAt, List.filter_cons, hpk]
    · rw [hinner, ih3, hs3, List.append_assoc]
    · intro k' hk' hp'
      rcases List.mem_cons.mp hk' with rfl | hk''
      · rw [hinner, ih3]
        exact List.mem_append_left _ (hs4 hp')
      · rw [hinner]
        exact ih4 k' hk'' hp'

/-- The level loop: over a duplicate-free list of levels, the skip set gains
every candidate promotable at some processed level, group_written is the
concatenation of the per-level blocks in level order, collections only grow
and hold every promoted candidate's group name. -/
theorem dedup_outer_char (comps : List (String × Ent))
    (cdepth : List (String × Nat)) (reuse : Bool) (lskip : List Nat)
    (cand : List MKey) (levels : List Nat) :
    ∀ (st : SIState), cand.Nodup → levels.Nodup →
    (∀ k ∈ cand, ∀ i ∈ levels, promotableAt comps cdepth i k = true →
      assocLookup st.group_written k = none) →
    ((∀ x : MKey,
        x ∈ (dedup_outer comps cdepth reuse lskip levels cand st).component_skip ↔
        (x ∈ st.component_skip ∨
          (x ∈ cand ∧ ∃ i ∈ levels, promotableAt comps cdepth i x = true))) ∧
     (dedup_outer comps cdepth reuse lskip levels cand st).group_written =
       st.group_written ++ (levels.map (blockAt comps cdepth cand)).flatten ∧
     (∃ l, (dedup_outer comps cdepth reuse lskip levels cand st).collections =
       st.collections ++ l) ∧
     (∀ k ∈ cand, ∀ i ∈ levels, promotableAt comps cdepth i k = true →
       group_name k.1 k.2 ∈
         (dedup_outer comps cdepth reuse lskip levels cand st).collections)) := by
  induction levels with
  | nil =>
    intro st _ _ _
    refine ⟨fun x => by simp [dedup_outer], by simp [dedup_outer],
      ⟨[], by simp [dedup_outer]⟩, by simp⟩
  | cons i ls' ih =>
    intro st hcnd hlnd hgw
    have houter : dedup_outer comps cdepth reuse lskip (i :: ls') cand st =
        dedup_outer comps cdepth reuse lskip ls' cand
          (dedup_inner comps cdepth reuse lskip i cand st) := rfl
    have hinotin : i ∉ ls' := (List.nodup_cons.mp hlnd).1
    have hlnd' : ls'.Nodup := (List.nodup_cons.mp hlnd).2
    obtain ⟨hi1, hi2, ⟨lc, hi3⟩, hi4⟩ :=
      dedup_inner_char comps cdepth reuse lskip i cand st hcnd
        (fun k hk hp => hgw k hk i (List.mem_cons_self _ _) hp)
    have hgw' : ∀ k ∈ cand, ∀ j ∈ ls', promotableAt comps cdepth j k = true →
        assocLookup (dedup_inner comps cdepth reuse lskip i cand st).group_written
          k = none := by
      intro k hk j hj hpj
      rw [hi2, assocLookup_append]
      rw [hgw k hk j (List.mem_cons_of_mem _ hj) hpj]
      have hpk : promotableAt comps cdepth i k = false := by
        by_contra hne
        have hpk' : promotableAt comps cdepth i k = true := by
          revert hne
          cases promotableAt comps cdepth i k <;> simp
        have h1 := promotableAt_eq_level hpk'
        have h2 := promotableAt_eq_level hpj
        exact hinotin ((h1.symm.trans h2) ▸ hj)
      have hbl : assocLookup (blockAt comps cdepth cand i) k = none := by
        unfold blockAt
        rw [assocLookup_map_self]
        rw [if_neg]
        intro hmem
        exact absurd ((List.mem_filter.mp hmem).2) (by simp [hpk])
      exact hbl
    obtain ⟨ihx1, ihx2, ⟨lc2, ihx3⟩, ihx4⟩ :=
      ih (dedup_inner comps cdepth reuse lskip i cand st) hcnd hlnd' hgw'
    refine ⟨?_, ?_, ⟨lc ++ lc2, ?_⟩, ?_⟩
    · intro x
      rw [houter, ihx1 x, hi1 x]
      constructor
      · rintro ((hx | ⟨hxc, hpx⟩) | ⟨hxc, j, hj, hpx⟩)
        · exact Or.inl hx
        · exact Or.inr ⟨hxc, i, List.mem_cons_self _ _, hpx⟩
        · exact Or.inr ⟨hxc, j, List.mem_cons_of_mem _ hj, hpx⟩
      · rintro (hx | ⟨hxc, j, hj, hpx⟩)
        · exact Or.inl (Or.inl hx)
        · rcases List.mem_cons.mp hj with rfl | hj'
          · exact Or.inl (Or.inr ⟨hxc, hpx⟩)
          · exact Or.inr ⟨hxc, j, hj', hpx⟩
    · rw [houter, ihx2, hi2]
      simp [List.append_assoc]
    · rw [houter, ihx3, hi3, List.append_assoc]
    · intro k hk j hj hpj
      rcases List.mem_cons.mp hj with rfl | hj'
      · rw [houter, ihx3]
        exact List.mem_append_left _ (hi4 k hk hpj)
      · rw [houter]
        exact ihx4 k hk j hj' hpj

/-- Looking a key up in the concatenated per-level blocks: its group name
when it is a candidate promotable at some listed level, nothing otherwise. -/
theorem assocLookup_blocks_flatten (comps : List (String × Ent))
    (cdepth : List (String × Nat)) (cand : List MKey) :
    ∀ (ls : List Nat) (k : MKey),
    assocLookup ((ls.map (blockAt comps cdepth cand)).flatten) k =
      if k ∈ cand ∧ ∃ i ∈ ls, promotableAt comps cdepth i k = true
      then some (group_name k.1 k.2) else none := by
  intro ls
  induction ls with
  | nil => intro k; simp [assocLookup]
  | cons i ls' ih =>
    intro k
    simp only [List.map_cons, List.flatten_cons]
    rw [assocLookup_append]
    have hbl : assocLookup (blockAt comps cdepth cand i) k =
        if k ∈ cand ∧ promotableAt comps cdepth i k = true
        then some (group_name k.1 k.2) else none := by
      unfold blockAt
      rw [assocLookup_map_self]
      by_cases hm : k ∈ cand.filter (promotableAt comps cdepth i)
      · rw [if_pos hm, if_pos (List.mem_filter.mp hm)]
      · rw [if_neg hm, if_neg]
        intro hc
        exact hm (List.mem_filter.mpr hc)
    rw [hbl]
    by_cases hm : k ∈ cand ∧ promotableAt comps cdepth i k = true
    · rw [if_pos hm, if_pos ⟨hm.1, i, List.mem_cons_self _ _, hm.2⟩]
    · rw [if_neg hm, ih k]
      by_cases h2 : k ∈ cand ∧ ∃ j ∈ ls', promotableAt comps cdepth j k = true
      · obtain ⟨hc, j, hj, hpj⟩ := h2
        rw [if_pos ⟨hc, j, hj, hpj⟩,
          if_pos ⟨hc, j, List.mem_cons_of_mem _ hj, hpj⟩]
      · rw [if_neg h2, if_neg]
        rintro ⟨hc, j, hj, hpj⟩
        rcases List.mem_cons.mp hj with rfl | hj'
        · exact hm ⟨hc, hpj⟩
        · exact h2 ⟨hc, j, hj', hpj⟩

/-- Every entry of a level's block records a pair of exactly that depth. -/
theorem blockAt_depth (comps : List (String × Ent))
    (cdepth : List (String × Nat)) (cand : List MKey) (i : Nat) :
    ∀ e ∈ blockAt comps cdepth cand i, lookupD cdepth e.1.1 0 = i := by
  intro e he
  unfold blockAt at he
  obtain ⟨kk, hkk, rfl⟩ := List.mem_map.mp he
  exact promotableAt_eq_level (List.mem_filter.mp hkk).2

/-- The concatenation of per-level blocks over ascending levels is sorted by
recorded component depth. -/
theorem pairwise_blocks (comps : List (String × Ent))
    (cdepth : List (String × Nat)) (cand : List MKey) :
    ∀ (ls : List Nat), List.Pairwise (· ≤ ·) ls →
    List.Pairwise (fun a b : MKey × String =>
      lookupD cdepth a.1.1 0 ≤ lookupD cdepth b.1.1 0)
      ((ls.map (blockAt comps cdepth cand)).flatten) := by
  intro ls
  induction ls with
  | nil => intro _; simp
  | cons i ls' ih =>
    intro hp
    simp only [List.map_cons, List.flatten_cons]
    rw [List.pairwise_append]
    refine ⟨?_, ih (List.pairwise_cons.mp hp).2, ?_⟩
    · apply List.pairwise_of_forall_mem_list
      intro a ha b hb
      rw [blockAt_depth comps cdepth cand i a ha,
        blockAt_depth comps cdepth cand i b hb]
    · intro a ha b hb
      rw [blockAt_depth comps cdepth cand i a ha]
      obtain ⟨L, hL, hbL⟩ := List.mem_flatten.mp hb
      obtain ⟨j, hj, rfl⟩ := List.mem_map.mp hL
      rw [blockAt_depth comps cdepth cand j b hbL]
      exact (List.pairwise_cons.mp hp).1 j hj

/-- Claim C2: on a fresh import state, for every candidate
(component, material) pair with an existing definition and recorded depth,
write_duplicateable_groups leaves a pair of depth exactly 1 out of the skip
set and the written-group map (no shared group is materialized for it — it is
left to the point-instancing path), while a qualifying pair of any other
depth is marked in ComponentSkip, its group handle is recorded under the
pair's group name in group_written, and a collection of that name exists
(fresh, or reused when the reuse option is set and the name already names a
collection); and group_written is ordered by ascending component depth,
reflecting depth-ascending processing from level 0 upward. -/
theorem write_duplicateable_groups_depth_policy (root : Ent)
    (comps : List (String × Ent)) (cdepth : List (String × Nat)) (thr : Nat)
    (reuse : Bool) (lskip : List Nat) (st : SIState)
    (h0 : st.component_skip = []) (h1 : st.group_written = []) :
    (∀ n m d ce,
      assocLookup comps n = some ce →
      assocLookup cdepth n = some d →
      (n, m) ∈ dedup_candidates
        (analyze_entities root "Sketchup" Transform.ident "Material"
          EntityType.none_ [] [] lskip) thr →
      ((d = 1 →
        (n, m) ∉ (write_duplicateable_groups root comps cdepth thr reuse lskip
          st).component_skip ∧
        assocLookup (write_duplicateable_groups root comps cdepth thr reuse
          lskip st).group_written (n, m) = none) ∧
       (d ≠ 1 →
        (n, m) ∈ (write_duplicateable_groups root comps cdepth thr reuse lskip
          st).component_skip ∧
        assocLookup (write_duplicateable_groups root comps cdepth thr reuse
          lskip st).group_written (n, m) = some (group_name n m) ∧
        group_name n m ∈ (write_duplicateable_groups root comps cdepth thr
          reuse lskip st).collections))) ∧
    List.Pairwise (fun a b : MKey × String =>
      lookupD cdepth a.1.1 0 ≤ lookupD cdepth b.1.1 0)
      (write_duplicateable_groups root comps cdepth thr reuse lskip
        st).group_written := by
  have hw : write_duplicateable_groups root comps cdepth thr reuse lskip st =
      dedup_outer comps cdepth reuse lskip
        (List.range (maxDepthOf cdepth + 1))
        (dedup_candidates
          (analyze_entities root "Sketchup" Transform.ident "Material"
            EntityType.none_ [] [] lskip) thr) st := rfl
  obtain ⟨ho1, ho2, ho3, ho4⟩ := dedup_outer_char comps cdepth reuse lskip
    (dedup_candidates
      (analyze_entities root "Sketchup" Transform.ident "Material"
        EntityType.none_ [] [] lskip) thr)
    (List.range (maxDepthOf cdepth + 1)) st
    (dedup_candidates_nodup _ _) (List.nodup_range _)
    (by intro k _ i _ _; rw [h1]; rfl)
  constructor
  · intro n m d ce hce hd hcand
    have hld : lookupD cdepth n 0 = d := by
      unfold lookupD
      rw [hd]
      rfl
    constructor
    · intro hd1
      constructor
      · rw [hw]
        intro hmem
        rcases (ho1 (n, m)).mp hmem with hx | ⟨_, i, _, hpi⟩
        · rw [h0] at hx
          simp at hx
        · have := (promotableAt_true_iff comps cdepth i (n, m)).mp hpi
          exact this.2.1 (by simpa [hld] using hd1)
      · rw [hw, ho2, h1, List.nil_append, assocLookup_blocks_flatten]
        rw [if_neg]
        rintro ⟨_, i, _, hpi⟩
        have := (promotableAt_true_iff comps cdepth i (n, m)).mp hpi
        exact this.2.1 (by simpa [hld] using hd1)
    · intro hd1
      have hp : promotableAt comps cdepth d (n, m) = true := by
        rw [promotableAt_true_iff]
        exact ⟨by simp [hce], by simpa [hld] using hd1, hld⟩
      have hdr : d ∈ List.range (maxDepthOf cdepth + 1) := by
        rw [List.mem_range]
        exact Nat.lt_succ_of_le (le_maxDepthOf hd)
      refine ⟨?_, ?_, ?_⟩
      · rw [hw]
        exact (ho1 (n, m)).mpr (Or.inr ⟨hcand, d, hdr, hp⟩)
      · rw [hw, ho2, h1, List.nil_append, assocLookup_blocks_flatten]
        rw [if_pos ⟨hcand, d, hdr, hp⟩]
      · rw [hw]
        exact ho4 (n, m) hcand d hdr hp
  · rw [hw, ho2, h1, List.nil_append]
    exact pairwise_blocks comps cdepth _ _
      ((List.pairwise_lt_range _).imp le_of_lt)

/-- Witness for C2: with threshold 1 the twice-instanced depth-0 Chair is
promoted — marked skipped, recorded in group_written under its group name,
its collection created — and the written-group map is depth-sorted. -/
theorem write_duplicateable_groups_depth_policy_witness :
    (("Chair", "Material") ∈ (write_duplicateable_groups entRoot2
      [("Chair", entChair)] [("Chair", 0)] 1 false [] {}).component_skip ∧
     assocLookup (write_duplicateable_groups entRoot2 [("Chair", entChair)]
       [("Chair", 0)] 1 false [] {}).group_written ("Chair", "Material") =
       some (group_name "Chair" "Material") ∧
     group_name "Chair" "Material" ∈ (write_duplicateable_groups entRoot2
       [("Chair", entChair)] [("Chair", 0)] 1 false [] {}).collections) ∧
    List.Pairwise (fun a b : MKey × String =>
      lookupD [("Chair", 0)] a.1.1 0 ≤ lookupD [("Chair", 0)] b.1.1 0)
      (write_duplicateable_groups entRoot2 [("Chair", entChair)]
        [("Chair", 0)] 1 false [] {}).group_written := by
  have h := write_duplicateable_groups_depth_policy entRoot2
    [("Chair", entChair)] [("Chair", 0)] 1 false [] {} rfl rfl
  exact ⟨(h.1 "Chair" "Material" 0 entChair rfl rfl (by decide)).2
    (by decide), h.2⟩

/-- Claim C1, counterexample: with threshold 1, the pair ("Leaf", "Material")
occurs exactly once — exactly the threshold — yet is not promoted to a shared
group: the depth-1 policy leaves it out of the skip set and the written-group
map. -/
theorem dedup_threshold_boundary_counterexample :
    countKey (analyze_entities rootL "Sketchup" Transform.ident "Material"
      EntityType.none_ [] [] []) ("Leaf", "Material") = 1 ∧
    ("Leaf", "Material") ∉ (write_duplicateable_groups rootL
      [("Leaf", entLeafDef), ("Sub", entChair)] [("Leaf", 1), ("Sub", 0)] 1
      false [] {}).component_skip ∧
    assocLookup (write_duplicateable_groups rootL
      [("Leaf", entLeafDef), ("Sub", entChair)] [("Leaf", 1), ("Sub", 0)] 1
      false [] {}).group_written ("Leaf", "Material") = none := by
  decide

/-- Claim C1 (amended): on a fresh import state with a positive threshold,
a pair is considered for promotion (kept by the candidate filter) exactly
when its occurrence count is at least the threshold; a pair occurring exactly
the threshold number of times is promoted to a shared group provided its
definition exists and its recorded depth is not exactly 1 (depth-1 pairs are
deliberately left for point instancing); and a pair occurring one time fewer
than the threshold is never promoted. -/
theorem dedup_threshold_boundary (root : Ent) (comps : List (String × Ent))
    (cdepth : List (String × Nat)) (thr : Nat) (reuse : Bool)
    (lskip : List Nat) (st : SIState) (hthr : 1 ≤ thr)
    (h0 : st.component_skip = []) (h1 : st.group_written = []) :
    (∀ k : MKey,
      k ∈ dedup_candidates
        (analyze_entities root "Sketchup" Transform.ident "Material"
          EntityType.none_ [] [] lskip) thr ↔
      thr ≤ countKey (analyze_entities root "Sketchup" Transform.ident
        "Material" EntityType.none_ [] [] lskip) k) ∧
    (∀ n m d ce,
      countKey (analyze_entities root "Sketchup" Transform.ident "Material"
        EntityType.none_ [] [] lskip) (n, m) = thr →
      assocLookup comps n = some ce →
      assocLookup cdepth n = some d → d ≠ 1 →
      (n, m) ∈ (write_duplicateable_groups root comps cdepth thr reuse lskip
        st).component_skip) ∧
    (∀ k : MKey,
      countKey (analyze_entities root "Sketchup" Transform.ident "Material"
        EntityType.none_ [] [] lskip) k = thr - 1 →
      k ∉ (write_duplicateable_groups root comps cdepth thr reuse lskip
        st).component_skip) := by
  have hw : write_duplicateable_groups root comps cdepth thr reuse lskip st =
      dedup_outer comps cdepth reuse lskip
        (List.range (maxDepthOf cdepth + 1))
        (dedup_candidates
          (analyze_entities root "Sketchup" Transform.ident "Material"
            EntityType.none_ [] [] lskip) thr) st := rfl
  obtain ⟨ho1, ho2, ho3, ho4⟩ := dedup_outer_char comps cdepth reuse lskip
    (dedup_candidates
      (analyze_entities root "Sketchup" Transform.ident "Material"
        EntityType.none_ [] [] lskip) thr)
    (List.range (maxDepthOf cdepth + 1)) st
    (dedup_candidates_nodup _ _) (List.nodup_range _)
    (by intro k _ i _ _; rw [h1]; rfl)
  refine ⟨?_, ?_, ?_⟩
  · intro k
    rw [mem_dedup_candidates]
    constructor
    · exact fun h => h.2
    · intro h
      exact ⟨lt_of_lt_of_le (Nat.lt_of_lt_of_le Nat.zero_lt_one hthr) h, h⟩
  · intro n m d ce hcount hce hd hd1
    have hld : lookupD cdepth n 0 = d := by
      unfold lookupD
      rw [hd]
      rfl
    have hp : promotableAt comps cdepth d (n, m) = true := by
      rw [promotableAt_true_iff]
      exact ⟨by simp [hce], by simpa [hld] using hd1, hld⟩
    have hdr : d ∈ List.range (maxDepthOf cdepth + 1) := by
      rw [List.mem_range]
      exact Nat.lt_succ_of_le (le_maxDepthOf hd)
    have hcand : (n, m) ∈ dedup_candidates
        (analyze_entities root "Sketchup" Transform.ident "Material"
          EntityType.none_ [] [] lskip) thr := by
      rw [mem_dedup_candidates, hcount]
      exact ⟨Nat.lt_of_lt_of_le Nat.zero_lt_one hthr, le_refl _⟩
    rw [hw]
    exact (ho1 (n, m)).mpr (Or.inr ⟨hcand, d, hdr, hp⟩)
  · intro k hcount
    rw [hw]
    intro hmem
    rcases (ho1 k).mp hmem with hx | ⟨hc, _⟩
    · rw [h0] at hx
      simp at hx
    · rw [mem_dedup_candidates, hcount] at hc
      have := hc.2
      omega

/-- Witness for C1 at threshold 2: the twice-instanced depth-0 Chair hits the
boundary and is promoted, while the once-instanced Desk (count = threshold
minus one) is not. -/
theorem dedup_threshold_boundary_witness :
    (("Chair", "Material") ∈ dedup_candidates
      (analyze_entities rootC1 "Sketchup" Transform.ident "Material"
        EntityType.none_ [] [] []) 2 ↔
      2 ≤ countKey (analyze_entities rootC1 "Sketchup" Transform.ident
        "Material" EntityType.none_ [] [] []) ("Chair", "Material")) ∧
    ("Chair", "Material") ∈ (write_duplicateable_groups rootC1
      [("Chair", entChair), ("Desk", entDesk)] [("Chair", 0), ("Desk", 0)] 2
      false [] {}).component_skip ∧
    ("Desk", "Material") ∉ (write_duplicateable_groups rootC1
      [("Chair", entChair), ("Desk", entDesk)] [("Chair", 0), ("Desk", 0)] 2
      false [] {}).component_skip := by
  have h := dedup_threshold_boundary rootC1
    [("Chair", entChair), ("Desk", entDesk)] [("Chair", 0), ("Desk", 0)] 2
    false [] {} (by norm_num) rfl rfl
  exact ⟨h.1 ("Chair", "Material"),
    h.2.1 "Chair" "Material" 0 entChair (by decide) rfl rfl (by decide),
    h.2.2 ("Desk", "Material") (by decide)⟩

end SKP
